import Mathlib

/-!
Verification of the tile-based rectification engine (`xcube_resampling/rectifier.py`).

The numerical code is embedded shallowly over `ℚ`: every numpy floating-point
quantity is modelled as an exact rational, except where IEEE special values
(NaN, ±inf) are semantically load-bearing (the inverse-index rasterizer divides
by a possibly-zero triangle determinant, and initializes its result planes with
NaN); there a four-constructor value type `RVal` models finite/±inf/NaN
arithmetic.  Arrays are functions from indices together with explicit extents;
Python integer arithmetic is `ℤ` with `Int.fdiv`/`Int.emod` for `//` and `%`.
-/

/-- Modelled from the spec: the `Grid` record of `xcube_resampling/grid.py` (the
module itself is not among the sources; only its use in `rectifier.py` is).
Per spec §3 it is a plain descriptor holding CRS, origin `(x_min, y_min)`,
resolution `(x_res, y_res)`, size `(width, height)` and tile size
`(tile_width, tile_height)`; `rectifier.py` reads exactly these fields and the
flag `crs.is_geographic`.  The CRS itself is abstracted to that flag. -/
structure Grid where
  is_geographic : Bool
  x_min : ℚ
  y_min : ℚ
  x_res : ℚ
  y_res : ℚ
  width : ℕ
  height : ℕ
  tile_width : ℕ
  tile_height : ℕ
deriving Repr, DecidableEq

namespace Rectifier

/-- A CRS transform is abstracted as a pure pointwise map `(lon, lat) ↦ (x, y)`
(collaborator contract, spec §6). -/
def Trafo := ℚ → ℚ → ℚ × ℚ

/-- Projection step of `block_dst_pixels_of_src_block` (rectifier.py:119-122):
identity when the destination CRS is geographic, else the external transform. -/
def projectPoint (g : Grid) (trafo : Trafo) (lon lat : ℚ) : ℚ × ℚ :=
  if g.is_geographic then (lon, lat) else trafo lon lat

/-- Quantization step of `block_dst_pixels_of_src_block` (rectifier.py:125-126):
`dst_i = floor((x - x_min)/x_res)`, `dst_j = floor((y - y_min)/y_res)`. -/
def fwdPixel (g : Grid) (trafo : Trafo) (lon lat : ℚ) : ℤ × ℤ :=
  let xy := projectPoint g trafo lon lat
  (⌊(xy.1 - g.x_min) / g.x_res⌋, ⌊(xy.2 - g.y_min) / g.y_res⌋)

/-- `Rectifier.block_dst_pixels_of_src_block` (rectifier.py:103-129), pointwise
over a block given as coordinate functions of (row, col). -/
def block_dst_pixels_of_src_block (g : Grid) (trafo : Trafo)
    (src_lon src_lat : ℕ → ℕ → ℚ) : ℕ → ℕ → ℤ × ℤ :=
  fun r c => fwdPixel g trafo (src_lon r c) (src_lat r c)

/-- Minimum of a list of integers, `np.min`/`np.nanmin` on an integer array
(the arrays reduced in rectifier.py are integer-valued, so `nanmin` = `min`);
defined only on nonempty lists, defaulting to 0. -/
def intMin : List ℤ → ℤ
  | [] => 0
  | x :: xs => xs.foldl min x

/-- Maximum of a list of integers, `np.max`/`np.nanmax` on an integer array. -/
def intMax : List ℤ → ℤ
  | [] => 0
  | x :: xs => xs.foldl max x

/-- Per-source-block extrema of the forward index, `(i_min, j_min, i_max, j_max)`. -/
structure Extrema where
  i_min : ℤ
  j_min : ℤ
  i_max : ℤ
  j_max : ℤ
deriving Repr, DecidableEq

/-- `Rectifier.dst_bbox_of_src_block` (rectifier.py:149-163): reduce one source
block of forward-index values to its extrema (`np.nanmin`/`np.nanmax`, which on
these integer arrays are plain min/max).  The block is the row-major list of its
`(i, j)` forward-index pairs. -/
def dst_bbox_of_src_block (blk : List (ℤ × ℤ)) : Extrema :=
  { i_min := intMin (blk.map Prod.fst)
    j_min := intMin (blk.map Prod.snd)
    i_max := intMax (blk.map Prod.fst)
    j_max := intMax (blk.map Prod.snd) }

/-- `Rectifier.determine_covering_dst_grid` (rectifier.py:165-201): merge the
per-block extrema (rectifier.py:180-183) into global `i_min, j_min, i_max,
j_max` and build the finalized Grid (rectifier.py:189-193) with origin
`(i_min·x_res, j_min·y_res)`, size `(i_max-i_min+1, j_max-j_min+1)` and
unchanged CRS, resolution and tile size. -/
def globalExtrema (blocks : List (List (ℤ × ℤ))) : Extrema :=
  let bboxes := blocks.map dst_bbox_of_src_block
  { i_min := intMin (bboxes.map Extrema.i_min)
    j_min := intMin (bboxes.map Extrema.j_min)
    i_max := intMax (bboxes.map Extrema.i_max)
    j_max := intMax (bboxes.map Extrema.j_max) }

/-- The grid update of `determine_covering_dst_grid` (rectifier.py:184-201). -/
def determine_covering_dst_grid (g : Grid) (blocks : List (List (ℤ × ℤ))) : Grid :=
  let e := globalExtrema blocks
  { g with
    x_min := e.i_min * g.x_res
    y_min := e.j_min * g.y_res
    width := (e.i_max - e.i_min + 1).toNat
    height := (e.j_max - e.j_min + 1).toNat }

/-- Per-destination-tile bounding box of contributing source pixels, in global
source pixel coordinates, channels in the order of `result_boxes`
(rectifier.py:258-261): col_min, row_min, col_max, row_max. -/
structure BBox where
  col_min : ℤ
  row_min : ℤ
  col_max : ℤ
  row_max : ℤ
deriving Repr, DecidableEq

/-- Python `math.ceil(a / b)` for natural `a`, positive natural `b`. -/
def ceilDivNat (a b : ℕ) : ℕ := (a + b - 1) / b

/-- Left pixel border of destination tile column `ti`:
`dst_left = np.arange(0, width, tile_width)` (rectifier.py:234). -/
def dst_left (g : Grid) (ti : ℕ) : ℤ := ti * g.tile_width

/-- Right pixel border of destination tile column `ti`:
`dst_right = np.hstack([dst_left[1:], [width]])` (rectifier.py:235). -/
def dst_right (g : Grid) (ti : ℕ) : ℤ :=
  if ti + 1 < ceilDivNat g.width g.tile_width then (ti + 1) * g.tile_width else g.width

/-- Lower (smaller-j) pixel border of destination tile row `tj`
(rectifier.py:236). -/
def dst_down (g : Grid) (tj : ℕ) : ℤ := tj * g.tile_height

/-- Upper pixel border of destination tile row `tj` (rectifier.py:237). -/
def dst_up (g : Grid) (tj : ℕ) : ℤ :=
  if tj + 1 < ceilDivNat g.height g.tile_height then (tj + 1) * g.tile_height else g.height

/-- Filter condition of `dst_bboxes_of_src_block` (rectifier.py:247-253): the
pixel's forward index `(i, j)` lies inside destination tile `(tj, ti)`'s pixel
range `[left, right) × [down, up)`. -/
def insideDstBlock (g : Grid) (tj ti : ℕ) (ij : ℤ × ℤ) : Bool :=
  (dst_down g tj ≤ ij.2) && (ij.2 < dst_up g tj) &&
  (dst_left g ti ≤ ij.1) && (ij.1 < dst_right g ti)

/-- Row-major list of local (row, col) positions of the source block whose
forward index falls inside destination tile `(tj, ti)` — the pixels selected by
the boolean mask `inside_block_j & inside_block_i` (rectifier.py:255-256). -/
def matchingPixels (fwd : ℕ → ℕ → ℤ × ℤ) (num_rows num_cols : ℕ)
    (g : Grid) (tj ti : ℕ) : List (ℕ × ℕ) :=
  (List.range num_rows).flatMap fun r =>
    (List.range num_cols).filterMap fun c =>
      if insideDstBlock g tj ti (fwd r c) then some (r, c) else none

/-- The sentinel "no source pixel maps here" box
`(src_width, src_height, -1, -1)` (rectifier.py:258-261, `else` branches;
`src_size` is `(rows, cols)` = `(src_height, src_width)`). -/
def sentinelBBox (src_size : ℕ × ℕ) : BBox :=
  { col_min := src_size.2, row_min := src_size.1, col_max := -1, row_max := -1 }

/-- `Rectifier.dst_bboxes_of_src_block` (rectifier.py:208-262) for one
destination tile `(tj, ti)`: the box of global source pixel coordinates
contributing to that tile, with one-pixel margin clipped to the image, or the
sentinel box if no pixel of this source block contributes.  The source block is
`fwd` over `num_rows × num_cols`; `src_tile_size` and `src_size` are `(rows,
cols)` pairs and `block_id` is `(block_row, block_col)`, as in the source. -/
def dst_bboxes_of_src_block (fwd : ℕ → ℕ → ℤ × ℤ) (num_rows num_cols : ℕ)
    (g : Grid) (src_tile_size : ℕ × ℕ) (src_size : ℕ × ℕ)
    (block_id : ℕ × ℕ) (tj ti : ℕ) : BBox :=
  let src_block_offset_col : ℤ := block_id.2 * src_tile_size.2
  let src_block_offset_row : ℤ := block_id.1 * src_tile_size.1
  let ms := matchingPixels fwd num_rows num_cols g tj ti
  let src_block_cols := ms.map (fun rc => (rc.2 : ℤ) + src_block_offset_col)
  let src_block_rows := ms.map (fun rc => (rc.1 : ℤ) + src_block_offset_row)
  if ms = [] then sentinelBBox src_size
  else
    { col_min := max (intMin src_block_cols - 1) 0
      row_min := max (intMin src_block_rows - 1) 0
      col_max := min (intMax src_block_cols + 2) src_size.2
      row_max := min (intMax src_block_rows + 2) src_size.1 }

/-- IEEE-754-style value for the rasterizer: a finite (exact rational) double,
±infinity, or NaN.  Finite arithmetic is exact; the special values arise only
from the division by a triangle determinant that may be exactly zero
(rectifier.py:393-397, 409-413) and from the NaN initialization of the result
planes (rectifier.py:370-373). -/
inductive RVal where
  | fin (q : ℚ)
  | pinf
  | ninf
  | nan
deriving Repr, DecidableEq

namespace RVal

/-- Division of two exact doubles as numpy evaluates it: the exact quotient for
a nonzero denominator, else ±inf or NaN by the sign of the numerator.  (The
sign of a floating zero denominator could flip pinf/ninf; every statement
proved below is insensitive to that swap.) -/
def divQ (n d : ℚ) : RVal :=
  if d ≠ 0 then fin (n / d)
  else if 0 < n then pinf
  else if n < 0 then ninf
  else nan

/-- IEEE addition restricted to the values that occur here. -/
def add : RVal → RVal → RVal
  | fin a, fin b => fin (a + b)
  | nan, _ => nan
  | _, nan => nan
  | pinf, ninf => nan
  | ninf, pinf => nan
  | pinf, _ => pinf
  | _, pinf => pinf
  | ninf, _ => ninf
  | _, ninf => ninf

/-- IEEE negation. -/
def neg : RVal → RVal
  | fin a => fin (-a)
  | pinf => ninf
  | ninf => pinf
  | nan => nan

/-- IEEE subtraction, `x - y = x + (-y)`. -/
def sub (x y : RVal) : RVal := add x (neg y)

/-- IEEE `≤` as a boolean: any comparison involving NaN is false. -/
def leB : RVal → RVal → Bool
  | nan, _ => false
  | _, nan => false
  | ninf, _ => true
  | _, ninf => false
  | _, pinf => true
  | pinf, _ => false
  | fin a, fin b => a ≤ b

/-- IEEE `≥` as a boolean. -/
def geB (x y : RVal) : Bool := leB y x

end RVal

/-- Fractional dst-tile-local pixel coordinates of one source subset point:
the coordinate part of `triangles_in_dst_pixel_grid` (rectifier.py:280-290),
`((x - x_min)/x_res - ti·tile_width, (y - y_min)/y_res - tj·tile_height)` after
projecting (identity when the destination CRS is geographic).
`block_id = (tj, ti)`. -/
def subsetFrac (g : Grid) (trafo : Trafo) (block_id : ℕ × ℕ)
    (lonlat : ℕ → ℕ → ℚ × ℚ) (r c : ℕ) : ℚ × ℚ :=
  let xy := projectPoint g trafo (lonlat r c).1 (lonlat r c).2
  ((xy.1 - g.x_min) / g.x_res - block_id.2 * g.tile_width,
   (xy.2 - g.y_min) / g.y_res - block_id.1 * g.tile_height)

/-- The four corners `P0..P3` of the quad at local (row, col) = `q`, as stacked
in `triangles_in_dst_pixel_grid` (rectifier.py:299-306):
P0 top-left, P1 top-right, P2 bottom-left, P3 bottom-right. -/
def quadPoint (sub : ℕ → ℕ → ℚ × ℚ) (k : ℕ) (q : ℕ × ℕ) : ℚ × ℚ :=
  match k with
  | 0 => sub q.1 q.2
  | 1 => sub q.1 (q.2 + 1)
  | 2 => sub (q.1 + 1) q.2
  | _ => sub (q.1 + 1) (q.2 + 1)

/-- Row-major list of quad positions; the quad array has extent
`(rows-1) × (cols-1)` (rectifier.py:299-306, the `[:-1]`/`[1:]` slices). -/
def quadList (rows cols : ℕ) : List (ℕ × ℕ) :=
  (List.range (rows - 1)).flatMap fun r =>
    (List.range (cols - 1)).map fun c => (r, c)

/-- `bboxes_min_i = floor(min over the four points)` (rectifier.py:315). -/
def bboxMinI (sub : ℕ → ℕ → ℚ × ℚ) (q : ℕ × ℕ) : ℤ :=
  ⌊min (min (quadPoint sub 0 q).1 (quadPoint sub 1 q).1)
       (min (quadPoint sub 2 q).1 (quadPoint sub 3 q).1)⌋

/-- `bboxes_min_j` (rectifier.py:316). -/
def bboxMinJ (sub : ℕ → ℕ → ℚ × ℚ) (q : ℕ × ℕ) : ℤ :=
  ⌊min (min (quadPoint sub 0 q).2 (quadPoint sub 1 q).2)
       (min (quadPoint sub 2 q).2 (quadPoint sub 3 q).2)⌋

/-- `bboxes_max_i = ceil(max over the four points)` (rectifier.py:317). -/
def bboxMaxI (sub : ℕ → ℕ → ℚ × ℚ) (q : ℕ × ℕ) : ℤ :=
  ⌈max (max (quadPoint sub 0 q).1 (quadPoint sub 1 q).1)
       (max (quadPoint sub 2 q).1 (quadPoint sub 3 q).1)⌉

/-- `bboxes_max_j` (rectifier.py:318). -/
def bboxMaxJ (sub : ℕ → ℕ → ℚ × ℚ) (q : ℕ × ℕ) : ℤ :=
  ⌈max (max (quadPoint sub 0 q).2 (quadPoint sub 1 q).2)
       (max (quadPoint sub 2 q).2 (quadPoint sub 3 q).2)⌉

/-- `is_inside_dst_block` of `bboxes_of_triangles` (rectifier.py:311-314):
tested on corner P0 against the nominal tile extent. -/
def quadInsideDstBlock (sub : ℕ → ℕ → ℚ × ℚ) (g : Grid) (q : ℕ × ℕ) : Bool :=
  decide (0 ≤ (quadPoint sub 0 q).1) && decide (0 ≤ (quadPoint sub 0 q).2) &&
  decide ((quadPoint sub 0 q).1 ≤ (g.tile_width : ℚ)) &&
  decide ((quadPoint sub 0 q).2 ≤ (g.tile_height : ℚ))

/-- `bboxes_max_width` (rectifier.py:319-327): maximum bbox width over the
quads lying at least partially inside the destination tile, 0 if none. -/
def bboxesMaxWidth (sub : ℕ → ℕ → ℚ × ℚ) (g : Grid) (quads : List (ℕ × ℕ)) : ℤ :=
  let ins := quads.filter (quadInsideDstBlock sub g)
  if ins = [] then 0 else intMax (ins.map fun q => bboxMaxI sub q - bboxMinI sub q)

/-- `bboxes_max_height` (rectifier.py:320-327). -/
def bboxesMaxHeight (sub : ℕ → ℕ → ℚ × ℚ) (g : Grid) (quads : List (ℕ × ℕ)) : ℤ :=
  let ins := quads.filter (quadInsideDstBlock sub g)
  if ins = [] then 0 else intMax (ins.map fun q => bboxMaxJ sub q - bboxMinJ sub q)

/-- `det_a` (rectifier.py:376-377), twice the signed area of triangle
`P0-P1-P2`. -/
def detA (sub : ℕ → ℕ → ℚ × ℚ) (q : ℕ × ℕ) : ℚ :=
  ((quadPoint sub 0 q).1 - (quadPoint sub 1 q).1) *
    ((quadPoint sub 0 q).2 - (quadPoint sub 2 q).2) -
  ((quadPoint sub 0 q).1 - (quadPoint sub 2 q).1) *
    ((quadPoint sub 0 q).2 - (quadPoint sub 1 q).2)

/-- `det_b` (rectifier.py:378-379), twice the signed area of triangle
`P3-P2-P1`. -/
def detB (sub : ℕ → ℕ → ℚ × ℚ) (q : ℕ × ℕ) : ℚ :=
  ((quadPoint sub 3 q).1 - (quadPoint sub 2 q).1) *
    ((quadPoint sub 3 q).2 - (quadPoint sub 1 q).2) -
  ((quadPoint sub 3 q).1 - (quadPoint sub 1 q).1) *
    ((quadPoint sub 3 q).2 - (quadPoint sub 2 q).2)

/-- `ua` (rectifier.py:393-394): first barycentric coordinate of the pixel
center `(dst_i + 0.5, dst_j + 0.5)` in triangle A, divided by `det_a`. -/
def uaOf (sub : ℕ → ℕ → ℚ × ℚ) (q : ℕ × ℕ) (dst_i dst_j : ℤ) : RVal :=
  RVal.divQ
    (((quadPoint sub 0 q).1 - dst_i - 1/2) *
        ((quadPoint sub 0 q).2 - (quadPoint sub 2 q).2) -
     ((quadPoint sub 0 q).2 - dst_j - 1/2) *
        ((quadPoint sub 0 q).1 - (quadPoint sub 2 q).1))
    (detA sub q)

/-- `va` (rectifier.py:396-397). -/
def vaOf (sub : ℕ → ℕ → ℚ × ℚ) (q : ℕ × ℕ) (dst_i dst_j : ℤ) : RVal :=
  RVal.divQ
    (((quadPoint sub 0 q).2 - dst_j - 1/2) *
        ((quadPoint sub 0 q).1 - (quadPoint sub 1 q).1) -
     ((quadPoint sub 0 q).1 - dst_i - 1/2) *
        ((quadPoint sub 0 q).2 - (quadPoint sub 1 q).2))
    (detA sub q)

/-- `ub` (rectifier.py:409-410). -/
def ubOf (sub : ℕ → ℕ → ℚ × ℚ) (q : ℕ × ℕ) (dst_i dst_j : ℤ) : RVal :=
  RVal.divQ
    (((quadPoint sub 3 q).1 - dst_i - 1/2) *
        ((quadPoint sub 3 q).2 - (quadPoint sub 1 q).2) -
     ((quadPoint sub 3 q).2 - dst_j - 1/2) *
        ((quadPoint sub 3 q).1 - (quadPoint sub 1 q).1))
    (detB sub q)

/-- `vb` (rectifier.py:412-413). -/
def vbOf (sub : ℕ → ℕ → ℚ × ℚ) (q : ℕ × ℕ) (dst_i dst_j : ℤ) : RVal :=
  RVal.divQ
    (((quadPoint sub 3 q).2 - dst_j - 1/2) *
        ((quadPoint sub 3 q).1 - (quadPoint sub 2 q).1) -
     ((quadPoint sub 3 q).1 - dst_i - 1/2) *
        ((quadPoint sub 3 q).2 - (quadPoint sub 2 q).2))
    (detB sub q)

/-- `uv_delta = 0.001` (rectifier.py:381). -/
def uv_delta : ℚ := 1/1000

/-- `u_min = v_min = -uv_delta` (rectifier.py:382). -/
def u_min : ℚ := -uv_delta

/-- `uv_max = 1.0 + 2*uv_delta` (rectifier.py:383). -/
def uv_max : ℚ := 1 + 2 * uv_delta

/-- `is_inside_triangle_a` (rectifier.py:398-400): barycentric containment with
tolerance plus the destination-tile extent guard. -/
def isInsideTriangleA (sub : ℕ → ℕ → ℚ × ℚ) (q : ℕ × ℕ)
    (dst_i dst_j dst_width dst_height : ℤ) : Bool :=
  (uaOf sub q dst_i dst_j).geB (.fin u_min) &&
  (vaOf sub q dst_i dst_j).geB (.fin u_min) &&
  ((uaOf sub q dst_i dst_j).add (vaOf sub q dst_i dst_j)).leB (.fin uv_max) &&
  decide (0 ≤ dst_i) && decide (dst_i < dst_width) &&
  decide (0 ≤ dst_j) && decide (dst_j < dst_height)

/-- `is_inside_triangle_b` (rectifier.py:414-416). -/
def isInsideTriangleB (sub : ℕ → ℕ → ℚ × ℚ) (q : ℕ × ℕ)
    (dst_i dst_j dst_width dst_height : ℤ) : Bool :=
  (ubOf sub q dst_i dst_j).geB (.fin u_min) &&
  (vbOf sub q dst_i dst_j).geB (.fin u_min) &&
  ((ubOf sub q dst_i dst_j).add (vbOf sub q dst_i dst_j)).leB (.fin uv_max) &&
  decide (0 ≤ dst_i) && decide (dst_i < dst_width) &&
  decide (0 ≤ dst_j) && decide (dst_j < dst_height)

/-- Value written for triangle A (rectifier.py:403-406):
`(src_id_col + src_offset[0] + ua, src_id_row + src_offset[1] + va)` with
`src_id_col/row` the quad's local (col, row). -/
def valA (sub : ℕ → ℕ → ℚ × ℚ) (q : ℕ × ℕ) (src_offset : ℚ × ℚ)
    (dst_i dst_j : ℤ) : RVal × RVal :=
  (RVal.add (.fin (q.2 + src_offset.1)) (uaOf sub q dst_i dst_j),
   RVal.add (.fin (q.1 + src_offset.2)) (vaOf sub q dst_i dst_j))

/-- Value written for triangle B (rectifier.py:419-422):
`(src_id_col + src_offset[0] + 1 - ub, src_id_row + src_offset[1] + 1 - vb)`. -/
def valB (sub : ℕ → ℕ → ℚ × ℚ) (q : ℕ × ℕ) (src_offset : ℚ × ℚ)
    (dst_i dst_j : ℤ) : RVal × RVal :=
  (RVal.sub (.fin (q.2 + src_offset.1 + 1)) (ubOf sub q dst_i dst_j),
   RVal.sub (.fin (q.1 + src_offset.2 + 1)) (vbOf sub q dst_i dst_j))

/-- The two result planes `(result_col, result_row)` as one map from
destination pixel `(j, i)`. -/
def IdxMat := ℤ → ℤ → RVal × RVal

/-- `result_col[:,:] = result_row[:,:] = nan` (rectifier.py:370-373). -/
def initMat : IdxMat := fun _ _ => (.nan, .nan)

/-- Assignment of both planes at pixel `(j, i)`. -/
def writeMat (m : IdxMat) (j i : ℤ) (v : RVal × RVal) : IdxMat :=
  fun j' i' => if j' = j ∧ i' = i then v else m j' i'

/-- One quad's contribution of triangle A at sweep offset
`off = (j_offset, i_offset)` (rectifier.py:385-406): the tested pixel is the
quad's bbox corner plus the offset; the write happens iff the containment test
passes. -/
def stepA (sub : ℕ → ℕ → ℚ × ℚ) (src_offset : ℚ × ℚ)
    (dst_width dst_height : ℤ) (off : ℕ × ℕ) (m : IdxMat) (q : ℕ × ℕ) : IdxMat :=
  let dst_j := bboxMinJ sub q + off.1
  let dst_i := bboxMinI sub q + off.2
  if isInsideTriangleA sub q dst_i dst_j dst_width dst_height then
    writeMat m dst_j dst_i (valA sub q src_offset dst_i dst_j)
  else m

/-- One quad's contribution of triangle B (rectifier.py:407-422). -/
def stepB (sub : ℕ → ℕ → ℚ × ℚ) (src_offset : ℚ × ℚ)
    (dst_width dst_height : ℤ) (off : ℕ × ℕ) (m : IdxMat) (q : ℕ × ℕ) : IdxMat :=
  let dst_j := bboxMinJ sub q + off.1
  let dst_i := bboxMinI sub q + off.2
  if isInsideTriangleB sub q dst_i dst_j dst_width dst_height then
    writeMat m dst_j dst_i (valB sub q src_offset dst_i dst_j)
  else m

/-- The rasterization sweep (rectifier.py:385-422): for every offset, first the
vectorized triangle-A assignment over all quads in row-major order, then the
triangle-B assignment.  numpy's fancy assignment with duplicate targets lets
the later index win, which equals this sequential left fold. -/
def sweep (sub : ℕ → ℕ → ℚ × ℚ) (src_offset : ℚ × ℚ)
    (dst_width dst_height : ℤ) (quads : List (ℕ × ℕ)) (maxW maxH : ℤ) : IdxMat :=
  let offsets := (List.range maxH.toNat).flatMap fun joff =>
    (List.range maxW.toNat).map fun ioff => (joff, ioff)
  offsets.foldl
    (fun m off =>
      quads.foldl (stepB sub src_offset dst_width dst_height off)
        (quads.foldl (stepA sub src_offset dst_width dst_height off) m))
    initMat

/-- `num_complete_tile_cols` (rectifier.py:362), as a Python int. -/
def num_complete_tile_cols (g : Grid) : ℤ := (ceilDivNat g.width g.tile_width : ℤ) - 1

/-- `num_complete_tile_rows` (rectifier.py:363). -/
def num_complete_tile_rows (g : Grid) : ℤ := (ceilDivNat g.height g.tile_height : ℤ) - 1

/-- `dst_width` of the destination block (rectifier.py:364-366): nominal tile
width except at the last tile column. -/
def dstBlockWidth (g : Grid) (ti : ℕ) : ℤ :=
  if (ti : ℤ) < num_complete_tile_cols g then g.tile_width
  else (g.width : ℤ) - num_complete_tile_cols g * g.tile_width

/-- `dst_height` of the destination block (rectifier.py:367-369). -/
def dstBlockHeight (g : Grid) (tj : ℕ) : ℤ :=
  if (tj : ℤ) < num_complete_tile_rows g then g.tile_height
  else (g.height : ℤ) - num_complete_tile_rows g * g.tile_height

/-- `Rectifier.inverse_index_of_dst_block_with_src_subset`
(rectifier.py:330-424): the full inverse index of destination block
`block_id = (tj, ti)` from a source subset of extent `rows × cols` given as
lon/lat per local (row, col), with `src_offset` added to the recorded
fractional source coordinates. -/
def inverse_index_of_dst_block_with_src_subset
    (lonlat : ℕ → ℕ → ℚ × ℚ) (rows cols : ℕ) (src_offset : ℚ × ℚ)
    (g : Grid) (trafo : Trafo) (block_id : ℕ × ℕ) : IdxMat :=
  let sub := subsetFrac g trafo block_id lonlat
  let quads := quadList rows cols
  sweep sub src_offset (dstBlockWidth g block_id.2) (dstBlockHeight g block_id.1)
    quads (bboxesMaxWidth sub g quads) (bboxesMaxHeight sub g quads)

/-- Merging of the per-source-block boxes of one destination tile
(rectifier.py:438-441): componentwise `np.nanmin` over the two min channels and
`np.nanmax` over the two max channels; on these integer arrays the NaN-ignoring
reductions are plain min/max. -/
def mergeBBoxes (boxes : List BBox) : BBox :=
  { col_min := intMin (boxes.map BBox.col_min)
    row_min := intMin (boxes.map BBox.row_min)
    col_max := intMax (boxes.map BBox.col_max)
    row_max := intMax (boxes.map BBox.row_max) }

/-- Length of the Python basic slice `a[start:stop]` (positive step) along an
axis of extent `len`: negative bounds count from the end, bounds are clamped to
`[0, len]`, and the length is never negative.  This is how
`create_inverse_pixel_index` cuts the source subset
`src_lon_lat[:, bbox[1]:bbox[3], bbox[0]:bbox[2]]` (rectifier.py:452-454). -/
def sliceLen (len : ℕ) (start stop : ℤ) : ℕ :=
  let norm : ℤ → ℤ := fun v => if v < 0 then max (v + len) 0 else min v len
  (norm stop - norm start).toNat

/-- One fetched source tile's measurement stack: `bands × rows × cols` values
(the `tile_measurements` element of `rectify_tiles_to_block`). -/
structure Meas where
  bands : ℕ
  rows : ℕ
  cols : ℕ
  val : ℕ → ℕ → ℕ → ℚ

/-- Bounds-checked read `m[:, j, i]` of a measurement stack: `some` of the
band-indexed values when `(j, i)` is inside the tile, else `none` (an
out-of-range numpy access). -/
def Meas.read (m : Meas) (j i : ℤ) : Option (ℕ → ℚ) :=
  if 0 ≤ j ∧ j < (m.rows : ℤ) ∧ 0 ≤ i ∧ i < (m.cols : ℤ) then
    some (fun b => m.val b j.toNat i.toNat)
  else none

/-- `tile_mask` of `rectify_tiles_to_block` (rectifier.py:507-518) at one
destination pixel whose (already rounded, NaN→-1) inverse index is
`(bi, bj)`: the pixel's source tile is this tile and the tile-local shifted
position lies inside the fetched tile.  `src_tilesize = (rows, cols)`; `//`
and `%` are Python floor division and modulo (`Int.fdiv`, `Int.emod`). -/
def tileMask (src_tilesize : ℕ × ℕ) (num_blocks_i : ℤ) (tile : ℤ) (m : Meas)
    (bj bi : ℤ) : Bool :=
  let tile_j := tile.fdiv num_blocks_i
  let tile_i := tile.emod num_blocks_i
  let shifted_j := bj - tile_j * src_tilesize.1
  let shifted_i := bi - tile_i * src_tilesize.2
  decide (bj.fdiv src_tilesize.1 = tile_j) && decide (bi.fdiv src_tilesize.2 = tile_i) &&
  decide (0 ≤ shifted_j) && decide (shifted_j < (m.rows : ℤ)) &&
  decide (0 ≤ shifted_i) && decide (shifted_i < (m.cols : ℤ))

/-- One source tile's contribution to one destination pixel in
`rectify_tiles_to_block` (rectifier.py:503-523): where the tile's mask holds,
the value read at the tile-locally shifted position replaces the accumulated
value; an out-of-range read surfaces as `Except.error`. -/
def rectifyStep (src_tilesize : ℕ × ℕ) (num_blocks_i : ℤ) (bj bi : ℤ) (b : ℕ)
    (acc : Except String (Option ℚ)) (t : ℤ × Meas) : Except String (Option ℚ) :=
  match acc with
  | .error e => .error e
  | .ok cur =>
    if tileMask src_tilesize num_blocks_i t.1 t.2 bj bi then
      match t.2.read (bj - (t.1.fdiv num_blocks_i) * src_tilesize.1)
          (bi - (t.1.emod num_blocks_i) * src_tilesize.2) with
      | some v => .ok (some (v b))
      | none => .error "index out of range"
    else .ok cur

/-- `Rectifier.rectify_tiles_to_block` (rectifier.py:477-523) at one
destination pixel `(r, c)` and band `b`: `dst_data` starts as NaN (`none`);
each source tile in order overwrites the pixel with its measurement value where
its mask holds, reading `m[:, shifted_j, shifted_i]` (rectifier.py:522). -/
def rectify_tiles_to_block (block_i block_j : ℕ → ℕ → ℤ)
    (src_tilesize : ℕ × ℕ) (num_blocks_i : ℤ) (tiles : List (ℤ × Meas))
    (b r c : ℕ) : Except String (Option ℚ) :=
  tiles.foldl (rectifyStep src_tilesize num_blocks_i (block_j r c) (block_i r c) b)
    (.ok none)

/-- The event "triangle A of quad `q` writes destination pixel `(j, i)` at
sweep offset `o = (j_offset, i_offset)`" (rectifier.py:385-406): the tested
pixel is the quad's bbox corner plus the offset, and the containment test
passes. -/
def writesAtA (sub : ℕ → ℕ → ℚ × ℚ) (q : ℕ × ℕ) (o : ℕ × ℕ)
    (dst_width dst_height j i : ℤ) : Prop :=
  isInsideTriangleA sub q (bboxMinI sub q + o.2) (bboxMinJ sub q + o.1)
    dst_width dst_height = true ∧
  bboxMinJ sub q + o.1 = j ∧ bboxMinI sub q + o.2 = i

/-- The triangle-B write event (rectifier.py:407-422). -/
def writesAtB (sub : ℕ → ℕ → ℚ × ℚ) (q : ℕ × ℕ) (o : ℕ × ℕ)
    (dst_width dst_height j i : ℤ) : Prop :=
  isInsideTriangleB sub q (bboxMinI sub q + o.2) (bboxMinJ sub q + o.1)
    dst_width dst_height = true ∧
  bboxMinJ sub q + o.1 = j ∧ bboxMinI sub q + o.2 = i

/-- Python exception surface relevant to the precondition guards. -/
inductive PyErr where
  | attributeError (name : String)
  | valueError (msg : String)
deriving Repr, DecidableEq

/-- Attribute state of a `Rectifier` object (rectifier.py:85-101): `__init__`
assigns `dst_grid` (possibly `None`), but never assigns `forward_index` or
`inverse_index`; those attributes come into existence only via
`create_forward_pixel_index` (rectifier.py:138) and
`create_inverse_pixel_index` (rectifier.py:469).  The outer `Option` is
attribute existence, the inner one is the Python `None`. -/
structure RectState where
  dst_grid : Option Grid
  forward_index : Option (Option Unit)
  inverse_index : Option (Option Unit)

/-- `Rectifier.__init__` (rectifier.py:85-101): only `src_lon`, `src_lat`,
`dst_grid` and `name` are assigned; the index attributes do not exist yet. -/
def mkRectifier (dst_grid : Option Grid) : RectState :=
  { dst_grid := dst_grid, forward_index := none, inverse_index := none }

/-- Reading `self.<name>`: a missing attribute raises `AttributeError`. -/
def getattrOrRaise {α : Type} (a : Option α) (name : String) : Except PyErr α :=
  match a with
  | none => .error (.attributeError name)
  | some v => .ok v

/-- Effect of `create_forward_pixel_index` (rectifier.py:131-147) on the
attribute state: `forward_index` is assigned the dask array (never `None`). -/
def create_forward_pixel_index (s : RectState) : RectState :=
  { s with forward_index := some (some ()) }

/-- The precondition guard of `determine_covering_dst_grid`
(rectifier.py:173-174): evaluating `self.forward_index is None` first reads the
attribute (AttributeError when it was never assigned), then raises the
ValueError when it is `None`. -/
def determine_covering_dst_grid_guard (s : RectState) : Except PyErr Unit := do
  let fwd ← getattrOrRaise s.forward_index "forward_index"
  match fwd with
  | none => .error (.valueError
      "missing forward index. Call create_forward_pixel_index() first.")
  | some _ => .ok ()

/-- The precondition guards of `rectify_nearest_neighbour`
(rectifier.py:555-558): first `if not self.dst_grid` (assigned in `__init__`;
`None` is falsy, a Grid instance truthy), then `self.inverse_index is None`
which reads a possibly-nonexistent attribute. -/
def rectify_nearest_neighbour_guard (s : RectState) : Except PyErr Unit := do
  match s.dst_grid with
  | none => .error (.valueError
      "missing dst grid. Call create_covering_dst_grid() first.")
  | some _ =>
    let inv ← getattrOrRaise s.inverse_index "inverse_index"
    match inv with
    | none => .error (.valueError
        "missing inverse index. Call create_inverse_pixel_index() first.")
    | some _ => .ok ()

/-! Concrete data for evaluating the embedding: the identity transform, the
4×3 source image and the 3×3 destination grid of `tests/test_rectifier.py`,
and a small one-quad subset whose corner P0 projects exactly onto the center
of destination pixel (0, 0). -/

/-- Identity transform (source and destination CRS coincide). -/
def idTrafo : Trafo := fun a b => (a, b)

/-- The destination grid of `tests/test_rectifier.py`:
`Grid(CRS(4326), (10.0, 54.0), (0.2, -0.125), (3, 3), (2, 2))`. -/
def exGrid : Grid :=
  { is_geographic := true, x_min := 10, y_min := 54,
    x_res := 2/10, y_res := -(125/1000),
    width := 3, height := 3, tile_width := 2, tile_height := 2 }

/-- `src_lon` of `tests/test_rectifier.py`. -/
def exLonTable : List (List ℚ) :=
  [[1035/100, 1050/100, 1065/100],
   [1025/100, 1040/100, 1055/100],
   [1015/100, 1030/100, 1045/100],
   [1005/100, 1020/100, 1035/100]]

/-- `src_lat` of `tests/test_rectifier.py`. -/
def exLatTable : List (List ℚ) :=
  [[5398/100, 5394/100, 5390/100],
   [5388/100, 5384/100, 5380/100],
   [5378/100, 5374/100, 5370/100],
   [5368/100, 5364/100, 5360/100]]

/-- `src_lon` as a function of (row, col). -/
def exLon : ℕ → ℕ → ℚ := fun r c => ((exLonTable.get? r).bind (·.get? c)).getD 0

/-- `src_lat` as a function of (row, col). -/
def exLat : ℕ → ℕ → ℚ := fun r c => ((exLatTable.get? r).bind (·.get? c)).getD 0

/-- The forward index of the whole example image. -/
def exFwd : ℕ → ℕ → ℤ × ℤ := block_dst_pixels_of_src_block exGrid idTrafo exLon exLat

/-- A 4×4 destination grid with unit resolution and a single 4×4 tile. -/
def c1Grid : Grid :=
  { is_geographic := true, x_min := 0, y_min := 0, x_res := 1, y_res := 1,
    width := 4, height := 4, tile_width := 4, tile_height := 4 }

/-- A 2×2 source subset whose four pixels project to
`(0.5, 0.5), (2.5, 0.5), (0.5, 2.5), (2.5, 2.5)`: corner P0 of the only quad
lies exactly on the center of destination pixel (0, 0). -/
def c1Lonlat : ℕ → ℕ → ℚ × ℚ := fun r c =>
  (if c = 0 then (1/2 : ℚ) else 5/2, if r = 0 then (1/2 : ℚ) else 5/2)

/-- The inverse index of that subset for destination block (0, 0), with
`src_offset = bounding-box origin + 0.5 = (0.5, 0.5)` exactly as
`create_inverse_pixel_index` passes it (rectifier.py:461). -/
def c1Inv : IdxMat :=
  inverse_index_of_dst_block_with_src_subset c1Lonlat 2 2 (1/2, 1/2) c1Grid idTrafo (0, 0)

/-- A degenerate source subset: all points on the line y = x, so both triangle
determinants of quad (0,0) vanish. -/
def c7Sub : ℕ → ℕ → ℚ × ℚ := fun r c => ((r + c : ℕ), (r + c : ℕ))

/-- A 1-band 2×2 measurement tile with value `j + i` at (j, i). -/
def exMeas : Meas :=
  { bands := 1, rows := 2, cols := 2, val := fun _ j i => (j : ℚ) + i }

/-- A preliminary destination grid as `determine_covering_dst_grid` expects it:
origin `(0, 0)` and size `(0, 0)` placeholders (spec §4.3, rectifier.py:67). -/
def preGrid : Grid :=
  { is_geographic := true, x_min := 0, y_min := 0,
    x_res := 2/10, y_res := -(125/1000),
    width := 0, height := 0, tile_width := 2, tile_height := 2 }

/-- Two small lon/lat blocks (three pixels of the example image). -/
def exBlocks : List (List (ℚ × ℚ)) :=
  [[(1035/100, 5398/100), (1050/100, 5394/100)], [(1025/100, 5388/100)]]

/-- Strict bounds separating a real (non-sentinel) box from the sentinel
`(src_width, src_height, -1, -1)`: its min channels are below `src_width`/
`src_height` and its max channels are above `-1`. -/
def bboxWithin (ss : ℕ × ℕ) (b : BBox) : Prop :=
  b.col_min < (ss.2 : ℤ) ∧ b.row_min < (ss.1 : ℤ) ∧
  -1 < b.col_max ∧ -1 < b.row_max

/-- The set of global source columns (`col + block column offset`) of the
pixels of a source block whose forward index falls inside destination tile
`(tj, ti)` — the quantity whose min/max the Tile Bounds Mapper margins. -/
def matchedCols (fwd : ℕ → ℕ → ℤ × ℤ) (nr nc : ℕ) (g : Grid) (tj ti : ℕ)
    (off : ℤ) : Set ℤ :=
  {x | ∃ r c : ℕ, r < nr ∧ c < nc ∧ insideDstBlock g tj ti (fwd r c) = true ∧
    x = (c : ℤ) + off}

/-- The matching global source rows, analogously. -/
def matchedRows (fwd : ℕ → ℕ → ℤ × ℤ) (nr nc : ℕ) (g : Grid) (tj ti : ℕ)
    (off : ℤ) : Set ℤ :=
  {x | ∃ r c : ℕ, r < nr ∧ c < nc ∧ insideDstBlock g tj ti (fwd r c) = true ∧
    x = (r : ℤ) + off}

/-- The box the spec prescribes when some pixel matches: minima and maxima over
the matching global source columns/rows exist, and the emitted box is
`(max(min_col-1,0), max(min_row-1,0), min(max_col+2,src_width),
min(max_row+2,src_height))`. -/
def boxSpec (fwd : ℕ → ℕ → ℤ × ℤ) (nr nc : ℕ) (g : Grid)
    (st ss bid : ℕ × ℕ) (tj ti : ℕ) : Prop :=
  ∃ mc mr Mc Mr : ℤ,
    IsLeast (matchedCols fwd nr nc g tj ti ((bid.2 : ℤ) * st.2)) mc ∧
    IsLeast (matchedRows fwd nr nc g tj ti ((bid.1 : ℤ) * st.1)) mr ∧
    IsGreatest (matchedCols fwd nr nc g tj ti ((bid.2 : ℤ) * st.2)) Mc ∧
    IsGreatest (matchedRows fwd nr nc g tj ti ((bid.1 : ℤ) * st.1)) Mr ∧
    dst_bboxes_of_src_block fwd nr nc g st ss bid tj ti =
      { col_min := max (mc - 1) 0, row_min := max (mr - 1) 0,
        col_max := min (Mc + 2) (ss.2 : ℤ), row_max := min (Mr + 2) (ss.1 : ℤ) }

/-! Auxiliary lemmas about the list reductions. -/

theorem foldl_min_le_init (xs : List ℤ) (a : ℤ) : xs.foldl min a ≤ a := by
  induction xs generalizing a with
  | nil => simp
  | cons y ys ih => exact le_trans (ih (min a y)) (min_le_left a y)

theorem foldl_min_le_mem (xs : List ℤ) (a x : ℤ) (hx : x ∈ xs) :
    xs.foldl min a ≤ x := by
  induction xs generalizing a with
  | nil => simp at hx
  | cons y ys ih =>
    rcases List.mem_cons.mp hx with h | h
    · subst h
      exact le_trans (foldl_min_le_init ys (min a x)) (min_le_right a x)
    · exact ih (min a y) h

theorem intMin_le (l : List ℤ) (x : ℤ) (hx : x ∈ l) : intMin l ≤ x := by
  cases l with
  | nil => simp at hx
  | cons y ys =>
    rcases List.mem_cons.mp hx with h | h
    · subst h; exact foldl_min_le_init ys x
    · exact foldl_min_le_mem ys y x h

theorem init_le_foldl_max (xs : List ℤ) (a : ℤ) : a ≤ xs.foldl max a := by
  induction xs generalizing a with
  | nil => simp
  | cons y ys ih => exact le_trans (le_max_left a y) (ih (max a y))

theorem mem_le_foldl_max (xs : List ℤ) (a x : ℤ) (hx : x ∈ xs) :
    x ≤ xs.foldl max a := by
  induction xs generalizing a with
  | nil => simp at hx
  | cons y ys ih =>
    rcases List.mem_cons.mp hx with h | h
    · subst h
      exact le_trans (le_max_right a x) (init_le_foldl_max ys (max a x))
    · exact ih (max a y) h

theorem le_intMax (l : List ℤ) (x : ℤ) (hx : x ∈ l) : x ≤ intMax l := by
  cases l with
  | nil => simp at hx
  | cons y ys =>
    rcases List.mem_cons.mp hx with h | h
    · subst h; exact init_le_foldl_max ys x
    · exact mem_le_foldl_max ys y x h

theorem foldl_min_mem (xs : List ℤ) (a : ℤ) :
    xs.foldl min a = a ∨ xs.foldl min a ∈ xs := by
  induction xs generalizing a with
  | nil => simp
  | cons y ys ih =>
    have hstep : (y :: ys).foldl min a = ys.foldl min (min a y) := rfl
    rcases ih (min a y) with h | h
    · rcases min_cases a y with ⟨he, _⟩ | ⟨he, _⟩
      · left; rw [hstep, h, he]
      · right; rw [hstep, h, he]; exact List.mem_cons_self y ys
    · right; rw [hstep]; exact List.mem_cons_of_mem y h

theorem intMin_mem (l : List ℤ) (hl : l ≠ []) : intMin l ∈ l := by
  cases l with
  | nil => exact absurd rfl hl
  | cons y ys =>
    rcases foldl_min_mem ys y with h | h
    · simp [intMin, h]
    · exact List.mem_cons_of_mem y h

theorem foldl_max_mem (xs : List ℤ) (a : ℤ) :
    xs.foldl max a = a ∨ xs.foldl max a ∈ xs := by
  induction xs generalizing a with
  | nil => simp
  | cons y ys ih =>
    have hstep : (y :: ys).foldl max a = ys.foldl max (max a y) := rfl
    rcases ih (max a y) with h | h
    · rcases max_cases a y with ⟨he, _⟩ | ⟨he, _⟩
      · left; rw [hstep, h, he]
      · right; rw [hstep, h, he]; exact List.mem_cons_self y ys
    · right; rw [hstep]; exact List.mem_cons_of_mem y h

theorem intMax_mem (l : List ℤ) (hl : l ≠ []) : intMax l ∈ l := by
  cases l with
  | nil => exact absurd rfl hl
  | cons y ys =>
    rcases foldl_max_mem ys y with h | h
    · simp [intMax, h]
    · exact List.mem_cons_of_mem y h

theorem RVal.divQ_of_ne (n d : ℚ) (hd : d ≠ 0) : RVal.divQ n d = .fin (n / d) := by
  simp [RVal.divQ, hd]

/-- Claim C1, counterexample: on the one-quad subset `c1Lonlat`, destination
pixel (0, 0) — center `(0 + 0.5, 0 + 0.5)` — lies exactly at the projected
location of source pixel (col, row) = (0, 0) and is covered by the mesh, yet
the recorded fractional inverse index is `(0.5, 0.5)` (= global (col, row) +
the 0.5 of `src_offset`), which is not within `δ = 0.001` of (0, 0). -/
theorem claim_C1_counterexample :
    subsetFrac c1Grid idTrafo (0, 0) c1Lonlat 0 0 =
      (((0 : ℤ) : ℚ) + 1/2, ((0 : ℤ) : ℚ) + 1/2) ∧
    c1Inv 0 0 = (.fin (1/2), .fin (1/2)) ∧
    ¬ ((1/2 : ℚ) - 0 ≤ uv_delta) ∧ ¬ ((1/2 : ℚ) - 0 ≤ uv_delta) := by
  with_unfolding_all decide

/-- Claim C1, amended: at a destination pixel whose center lies exactly at the
projected location of a source pixel that is a vertex of the writing triangle
(any of the three vertices of triangle A or of triangle B, determinant
nonzero), the rasterizer's containment test passes and the value written is
exactly that source pixel's subset-local (col, row) plus `src_offset` — i.e.
global (col, row) + 0.5 under the pipeline's `src_offset = bbox origin + 0.5`,
not global (col, row) itself. -/
theorem claim_C1 (sub : ℕ → ℕ → ℚ × ℚ) (q : ℕ × ℕ) (di dj dw dh : ℤ)
    (off : ℚ × ℚ) (hdi0 : 0 ≤ di) (hdiw : di < dw) (hdj0 : 0 ≤ dj) (hdjh : dj < dh) :
    (quadPoint sub 0 q = ((di : ℚ) + 1/2, (dj : ℚ) + 1/2) → detA sub q ≠ 0 →
      isInsideTriangleA sub q di dj dw dh = true ∧
      valA sub q off di dj = (.fin ((q.2 : ℚ) + off.1), .fin ((q.1 : ℚ) + off.2))) ∧
    (quadPoint sub 1 q = ((di : ℚ) + 1/2, (dj : ℚ) + 1/2) → detA sub q ≠ 0 →
      isInsideTriangleA sub q di dj dw dh = true ∧
      valA sub q off di dj = (.fin ((q.2 : ℚ) + 1 + off.1), .fin ((q.1 : ℚ) + off.2))) ∧
    (quadPoint sub 2 q = ((di : ℚ) + 1/2, (dj : ℚ) + 1/2) → detA sub q ≠ 0 →
      isInsideTriangleA sub q di dj dw dh = true ∧
      valA sub q off di dj = (.fin ((q.2 : ℚ) + off.1), .fin ((q.1 : ℚ) + 1 + off.2))) ∧
    (quadPoint sub 3 q = ((di : ℚ) + 1/2, (dj : ℚ) + 1/2) → detB sub q ≠ 0 →
      isInsideTriangleB sub q di dj dw dh = true ∧
      valB sub q off di dj = (.fin ((q.2 : ℚ) + 1 + off.1), .fin ((q.1 : ℚ) + 1 + off.2))) ∧
    (quadPoint sub 2 q = ((di : ℚ) + 1/2, (dj : ℚ) + 1/2) → detB sub q ≠ 0 →
      isInsideTriangleB sub q di dj dw dh = true ∧
      valB sub q off di dj = (.fin ((q.2 : ℚ) + off.1), .fin ((q.1 : ℚ) + 1 + off.2))) ∧
    (quadPoint sub 1 q = ((di : ℚ) + 1/2, (dj : ℚ) + 1/2) → detB sub q ≠ 0 →
      isInsideTriangleB sub q di dj dw dh = true ∧
      valB sub q off di dj = (.fin ((q.2 : ℚ) + 1 + off.1), .fin ((q.1 : ℚ) + off.2))) := by
  have hmemA : ∀ u v : ℚ, uaOf sub q di dj = .fin u → vaOf sub q di dj = .fin v →
      -uv_delta ≤ u → -uv_delta ≤ v → u + v ≤ 1 + 2 * uv_delta →
      isInsideTriangleA sub q di dj dw dh = true := by
    intro u v hu hv h1 h2 h3
    simp only [isInsideTriangleA, hu, hv, RVal.geB, RVal.leB, RVal.add, u_min, uv_max,
      Bool.and_eq_true, decide_eq_true_eq]
    exact ⟨⟨⟨⟨⟨⟨h1, h2⟩, h3⟩, hdi0⟩, hdiw⟩, hdj0⟩, hdjh⟩
  have hmemB : ∀ u v : ℚ, ubOf sub q di dj = .fin u → vbOf sub q di dj = .fin v →
      -uv_delta ≤ u → -uv_delta ≤ v → u + v ≤ 1 + 2 * uv_delta →
      isInsideTriangleB sub q di dj dw dh = true := by
    intro u v hu hv h1 h2 h3
    simp only [isInsideTriangleB, hu, hv, RVal.geB, RVal.leB, RVal.add, u_min, uv_max,
      Bool.and_eq_true, decide_eq_true_eq]
    exact ⟨⟨⟨⟨⟨⟨h1, h2⟩, h3⟩, hdi0⟩, hdiw⟩, hdj0⟩, hdjh⟩
  refine ⟨fun h hdet => ?_, fun h hdet => ?_, fun h hdet => ?_,
    fun h hdet => ?_, fun h hdet => ?_, fun h hdet => ?_⟩
  · -- triangle A, vertex P0
    have hua : uaOf sub q di dj = .fin 0 := by
      unfold uaOf
      rw [show (((quadPoint sub 0 q).1 - di - 1/2) *
            ((quadPoint sub 0 q).2 - (quadPoint sub 2 q).2) -
          ((quadPoint sub 0 q).2 - dj - 1/2) *
            ((quadPoint sub 0 q).1 - (quadPoint sub 2 q).1)) = 0 by
        rw [h]; dsimp only; ring]
      rw [RVal.divQ_of_ne _ _ hdet, zero_div]
    have hva : vaOf sub q di dj = .fin 0 := by
      unfold vaOf
      rw [show (((quadPoint sub 0 q).2 - dj - 1/2) *
            ((quadPoint sub 0 q).1 - (quadPoint sub 1 q).1) -
          ((quadPoint sub 0 q).1 - di - 1/2) *
            ((quadPoint sub 0 q).2 - (quadPoint sub 1 q).2)) = 0 by
        rw [h]; dsimp only; ring]
      rw [RVal.divQ_of_ne _ _ hdet, zero_div]
    refine ⟨hmemA 0 0 hua hva (by norm_num [uv_delta]) (by norm_num [uv_delta])
      (by norm_num [uv_delta]), ?_⟩
    simp only [valA, hua, hva, RVal.add, Prod.mk.injEq, RVal.fin.injEq]
    constructor <;> ring
  · -- triangle A, vertex P1
    have hua : uaOf sub q di dj = .fin 1 := by
      unfold uaOf
      rw [show (((quadPoint sub 0 q).1 - di - 1/2) *
            ((quadPoint sub 0 q).2 - (quadPoint sub 2 q).2) -
          ((quadPoint sub 0 q).2 - dj - 1/2) *
            ((quadPoint sub 0 q).1 - (quadPoint sub 2 q).1)) = detA sub q by
        unfold detA; rw [h]; dsimp only; ring]
      rw [RVal.divQ_of_ne _ _ hdet, div_self hdet]
    have hva : vaOf sub q di dj = .fin 0 := by
      unfold vaOf
      rw [show (((quadPoint sub 0 q).2 - dj - 1/2) *
            ((quadPoint sub 0 q).1 - (quadPoint sub 1 q).1) -
          ((quadPoint sub 0 q).1 - di - 1/2) *
            ((quadPoint sub 0 q).2 - (quadPoint sub 1 q).2)) = 0 by
        rw [h]; dsimp only; ring]
      rw [RVal.divQ_of_ne _ _ hdet, zero_div]
    refine ⟨hmemA 1 0 hua hva (by norm_num [uv_delta]) (by norm_num [uv_delta])
      (by norm_num [uv_delta]), ?_⟩
    simp only [valA, hua, hva, RVal.add, Prod.mk.injEq, RVal.fin.injEq]
    constructor <;> ring
  · -- triangle A, vertex P2
    have hua : uaOf sub q di dj = .fin 0 := by
      unfold uaOf
      rw [show (((quadPoint sub 0 q).1 - di - 1/2) *
            ((quadPoint sub 0 q).2 - (quadPoint sub 2 q).2) -
          ((quadPoint sub 0 q).2 - dj - 1/2) *
            ((quadPoint sub 0 q).1 - (quadPoint sub 2 q).1)) = 0 by
        rw [h]; dsimp only; ring]
      rw [RVal.divQ_of_ne _ _ hdet, zero_div]
    have hva : vaOf sub q di dj = .fin 1 := by
      unfold vaOf
      rw [show (((quadPoint sub 0 q).2 - dj - 1/2) *
            ((quadPoint sub 0 q).1 - (quadPoint sub 1 q).1) -
          ((quadPoint sub 0 q).1 - di - 1/2) *
            ((quadPoint sub 0 q).2 - (quadPoint sub 1 q).2)) = detA sub q by
        unfold detA; rw [h]; dsimp only; ring]
      rw [RVal.divQ_of_ne _ _ hdet, div_self hdet]
    refine ⟨hmemA 0 1 hua hva (by norm_num [uv_delta]) (by norm_num [uv_delta])
      (by norm_num [uv_delta]), ?_⟩
    simp only [valA, hua, hva, RVal.add, Prod.mk.injEq, RVal.fin.injEq]
    constructor <;> ring
  · -- triangle B, vertex P3
    have hub : ubOf sub q di dj = .fin 0 := by
      unfold ubOf
      rw [show (((quadPoint sub 3 q).1 - di - 1/2) *
            ((quadPoint sub 3 q).2 - (quadPoint sub 1 q).2) -
          ((quadPoint sub 3 q).2 - dj - 1/2) *
            ((quadPoint sub 3 q).1 - (quadPoint sub 1 q).1)) = 0 by
        rw [h]; dsimp only; ring]
      rw [RVal.divQ_of_ne _ _ hdet, zero_div]
    have hvb : vbOf sub q di dj = .fin 0 := by
      unfold vbOf
      rw [show (((quadPoint sub 3 q).2 - dj - 1/2) *
            ((quadPoint sub 3 q).1 - (quadPoint sub 2 q).1) -
          ((quadPoint sub 3 q).1 - di - 1/2) *
            ((quadPoint sub 3 q).2 - (quadPoint sub 2 q).2)) = 0 by
        rw [h]; dsimp only; ring]
      rw [RVal.divQ_of_ne _ _ hdet, zero_div]
    refine ⟨hmemB 0 0 hub hvb (by norm_num [uv_delta]) (by norm_num [uv_delta])
      (by norm_num [uv_delta]), ?_⟩
    simp only [valB, hub, hvb, RVal.sub, RVal.neg, RVal.add, Prod.mk.injEq, RVal.fin.injEq]
    constructor <;> ring
  · -- triangle B, vertex P2
    have hub : ubOf sub q di dj = .fin 1 := by
      unfold ubOf
      rw [show (((quadPoint sub 3 q).1 - di - 1/2) *
            ((quadPoint sub 3 q).2 - (quadPoint sub 1 q).2) -
          ((quadPoint sub 3 q).2 - dj - 1/2) *
            ((quadPoint sub 3 q).1 - (quadPoint sub 1 q).1)) = detB sub q by
        unfold detB; rw [h]; dsimp only; ring]
      rw [RVal.divQ_of_ne _ _ hdet, div_self hdet]
    have hvb : vbOf sub q di dj = .fin 0 := by
      unfold vbOf
      rw [show (((quadPoint sub 3 q).2 - dj - 1/2) *
            ((quadPoint sub 3 q).1 - (quadPoint sub 2 q).1) -
          ((quadPoint sub 3 q).1 - di - 1/2) *
            ((quadPoint sub 3 q).2 - (quadPoint sub 2 q).2)) = 0 by
        rw [h]; dsimp only; ring]
      rw [RVal.divQ_of_ne _ _ hdet, zero_div]
    refine ⟨hmemB 1 0 hub hvb (by norm_num [uv_delta]) (by norm_num [uv_delta])
      (by norm_num [uv_delta]), ?_⟩
    simp only [valB, hub, hvb, RVal.sub, RVal.neg, RVal.add, Prod.mk.injEq, RVal.fin.injEq]
    constructor <;> ring
  · -- triangle B, vertex P1
    have hub : ubOf sub q di dj = .fin 0 := by
      unfold ubOf
      rw [show (((quadPoint sub 3 q).1 - di - 1/2) *
            ((quadPoint sub 3 q).2 - (quadPoint sub 1 q).2) -
          ((quadPoint sub 3 q).2 - dj - 1/2) *
            ((quadPoint sub 3 q).1 - (quadPoint sub 1 q).1)) = 0 by
        rw [h]; dsimp only; ring]
      rw [RVal.divQ_of_ne _ _ hdet, zero_div]
    have hvb : vbOf sub q di dj = .fin 1 := by
      unfold vbOf
      rw [show (((quadPoint sub 3 q).2 - dj - 1/2) *
            ((quadPoint sub 3 q).1 - (quadPoint sub 2 q).1) -
          ((quadPoint sub 3 q).1 - di - 1/2) *
            ((quadPoint sub 3 q).2 - (quadPoint sub 2 q).2)) = detB sub q by
        unfold detB; rw [h]; dsimp only; ring]
      rw [RVal.divQ_of_ne _ _ hdet, div_self hdet]
    refine ⟨hmemB 0 1 hub hvb (by norm_num [uv_delta]) (by norm_num [uv_delta])
      (by norm_num [uv_delta]), ?_⟩
    simp only [valB, hub, hvb, RVal.sub, RVal.neg, RVal.add, Prod.mk.injEq, RVal.fin.injEq]
    constructor <;> ring

/-- Claim C1, witness: on the `c1Lonlat` quad with `src_offset = (0.5, 0.5)`
the write for vertex P0 of triangle A at destination pixel (0, 0) passes the
containment test and records `(0 + 0.5, 0 + 0.5)`. -/
theorem claim_C1_witness :
    isInsideTriangleA (subsetFrac c1Grid idTrafo (0, 0) c1Lonlat) (0, 0) 0 0 4 4 = true ∧
    valA (subsetFrac c1Grid idTrafo (0, 0) c1Lonlat) (0, 0) (1/2, 1/2) 0 0 =
      (.fin ((0 : ℚ) + 1/2), .fin ((0 : ℚ) + 1/2)) :=
  (claim_C1 (subsetFrac c1Grid idTrafo (0, 0) c1Lonlat) (0, 0) 0 0 4 4 (1/2, 1/2)
    (by norm_num) (by norm_num) (by norm_num) (by norm_num)).1
    (by with_unfolding_all decide) (by with_unfolding_all decide)

theorem RVal.divQ_zero_not_fin (n : ℚ) (u : ℚ) : RVal.divQ n 0 ≠ .fin u := by
  unfold RVal.divQ
  split_ifs <;> simp_all

theorem insideExpr_false (x y : RVal) (a b c : ℚ) (r1 r2 r3 r4 : Bool)
    (hx : ∀ u, x ≠ .fin u) (hy : ∀ u, y ≠ .fin u) :
    (x.geB (.fin a) && y.geB (.fin b) && ((x.add y).leB (.fin c))
      && r1 && r2 && r3 && r4) = false := by
  cases x with
  | fin u => exact absurd rfl (hx u)
  | pinf =>
    cases y with
    | fin u => exact absurd rfl (hy u)
    | pinf => rfl
    | ninf => rfl
    | nan => rfl
  | ninf =>
    cases y with
    | fin u => exact absurd rfl (hy u)
    | pinf => rfl
    | ninf => rfl
    | nan => rfl
  | nan =>
    cases y with
    | fin u => exact absurd rfl (hy u)
    | pinf => rfl
    | ninf => rfl
    | nan => rfl

/-- Claim C7: for a quad whose triangle determinant is exactly zero, the
division by the zero determinant yields only non-finite IEEE values (±inf or
NaN, never an exception in the embedding's total semantics), the barycentric
membership test evaluates false at every candidate destination pixel, and the
rasterization step writes nothing from that triangle. -/
theorem claim_C7 (sub : ℕ → ℕ → ℚ × ℚ) (q : ℕ × ℕ) (off : ℚ × ℚ) (o : ℕ × ℕ)
    (m : IdxMat) (di dj dw dh : ℤ) :
    (detA sub q = 0 →
      isInsideTriangleA sub q di dj dw dh = false ∧
      stepA sub off dw dh o m q = m) ∧
    (detB sub q = 0 →
      isInsideTriangleB sub q di dj dw dh = false ∧
      stepB sub off dw dh o m q = m) := by
  constructor
  · intro hdet
    have hfalse : ∀ di' dj' : ℤ, isInsideTriangleA sub q di' dj' dw dh = false := by
      intro di' dj'
      have hx : ∀ u, uaOf sub q di' dj' ≠ .fin u := by
        intro u; unfold uaOf; rw [hdet]; exact RVal.divQ_zero_not_fin _ u
      have hy : ∀ u, vaOf sub q di' dj' ≠ .fin u := by
        intro u; unfold vaOf; rw [hdet]; exact RVal.divQ_zero_not_fin _ u
      exact insideExpr_false _ _ _ _ _ _ _ _ _ hx hy
    exact ⟨hfalse di dj, by simp [stepA, hfalse]⟩
  · intro hdet
    have hfalse : ∀ di' dj' : ℤ, isInsideTriangleB sub q di' dj' dw dh = false := by
      intro di' dj'
      have hx : ∀ u, ubOf sub q di' dj' ≠ .fin u := by
        intro u; unfold ubOf; rw [hdet]; exact RVal.divQ_zero_not_fin _ u
      have hy : ∀ u, vbOf sub q di' dj' ≠ .fin u := by
        intro u; unfold vbOf; rw [hdet]; exact RVal.divQ_zero_not_fin _ u
      exact insideExpr_false _ _ _ _ _ _ _ _ _ hx hy
    exact ⟨hfalse di dj, by simp [stepB, hfalse]⟩

/-- Claim C7, witness: on the collinear subset `c7Sub` both determinants of
quad (0, 0) vanish, the membership tests are false at pixel (0, 0), and the
steps leave the result planes untouched. -/
theorem claim_C7_witness :
    (isInsideTriangleA c7Sub (0, 0) 0 0 1 1 = false ∧
      stepA c7Sub (1/2, 1/2) 1 1 (0, 0) initMat (0, 0) = initMat) ∧
    (isInsideTriangleB c7Sub (0, 0) 0 0 1 1 = false ∧
      stepB c7Sub (1/2, 1/2) 1 1 (0, 0) initMat (0, 0) = initMat) :=
  ⟨(claim_C7 c7Sub (0, 0) (1/2, 1/2) (0, 0) initMat 0 0 1 1).1
      (by with_unfolding_all decide),
   (claim_C7 c7Sub (0, 0) (1/2, 1/2) (0, 0) initMat 0 0 1 1).2
      (by with_unfolding_all decide)⟩

/-- Claim C3: after `determine_covering_dst_grid` on the global forward-index
extrema of a nonempty collection of nonempty source blocks (forward-indexed
against the preliminary grid, whose origin is the `(0, 0)` placeholder, spec
§4.3), the finalized Grid has `width = i_max - i_min + 1 ≥ 1`,
`height = j_max - j_min + 1 ≥ 1`, origin `(i_min·x_res, j_min·y_res)`, and
every source pixel's forward index recomputed against the finalized Grid lies
inside `[0, width) × [0, height)`. -/
theorem claim_C3 (g : Grid) (trafo : Trafo) (lonlatBlocks : List (List (ℚ × ℚ)))
    (hx : g.x_res ≠ 0) (hy : g.y_res ≠ 0) (hx0 : g.x_min = 0) (hy0 : g.y_min = 0)
    (hne : lonlatBlocks ≠ []) (hbne : ∀ b ∈ lonlatBlocks, b ≠ []) :
    let blocks := lonlatBlocks.map (List.map (fun p => fwdPixel g trafo p.1 p.2))
    let e := globalExtrema blocks
    let g' := determine_covering_dst_grid g blocks
    (g'.width : ℤ) = e.i_max - e.i_min + 1 ∧
    (g'.height : ℤ) = e.j_max - e.j_min + 1 ∧
    1 ≤ g'.width ∧ 1 ≤ g'.height ∧
    g'.x_min = e.i_min * g.x_res ∧ g'.y_min = e.j_min * g.y_res ∧
    ∀ b ∈ lonlatBlocks, ∀ p ∈ b,
      0 ≤ (fwdPixel g' trafo p.1 p.2).1 ∧
      (fwdPixel g' trafo p.1 p.2).1 < (g'.width : ℤ) ∧
      0 ≤ (fwdPixel g' trafo p.1 p.2).2 ∧
      (fwdPixel g' trafo p.1 p.2).2 < (g'.height : ℤ) := by
  intro blocks e g'
  have hpix : ∀ b ∈ lonlatBlocks, ∀ p ∈ b,
      e.i_min ≤ (fwdPixel g trafo p.1 p.2).1 ∧
      (fwdPixel g trafo p.1 p.2).1 ≤ e.i_max ∧
      e.j_min ≤ (fwdPixel g trafo p.1 p.2).2 ∧
      (fwdPixel g trafo p.1 p.2).2 ≤ e.j_max := by
    intro b hb p hp
    have hfb_mem : fwdPixel g trafo p.1 p.2 ∈
        b.map (fun p => fwdPixel g trafo p.1 p.2) :=
      List.mem_map_of_mem _ hp
    have hfb_in : b.map (fun p => fwdPixel g trafo p.1 p.2) ∈ blocks :=
      List.mem_map_of_mem _ hb
    have hbbox_in : dst_bbox_of_src_block (b.map (fun p => fwdPixel g trafo p.1 p.2)) ∈
        blocks.map dst_bbox_of_src_block :=
      List.mem_map_of_mem _ hfb_in
    refine ⟨?_, ?_, ?_, ?_⟩
    · exact le_trans
        (intMin_le _ _ (List.mem_map_of_mem Extrema.i_min hbbox_in))
        (intMin_le _ _ (List.mem_map_of_mem Prod.fst hfb_mem))
    · exact le_trans
        (le_intMax _ _ (List.mem_map_of_mem Prod.fst hfb_mem))
        (le_intMax _ _ (List.mem_map_of_mem Extrema.i_max hbbox_in))
    · exact le_trans
        (intMin_le _ _ (List.mem_map_of_mem Extrema.j_min hbbox_in))
        (intMin_le _ _ (List.mem_map_of_mem Prod.snd hfb_mem))
    · exact le_trans
        (le_intMax _ _ (List.mem_map_of_mem Prod.snd hfb_mem))
        (le_intMax _ _ (List.mem_map_of_mem Extrema.j_max hbbox_in))
  obtain ⟨b₀, hb₀⟩ := List.exists_mem_of_ne_nil _ hne
  obtain ⟨p₀, hp₀⟩ := List.exists_mem_of_ne_nil _ (hbne b₀ hb₀)
  have hii : e.i_min ≤ e.i_max :=
    le_trans (hpix b₀ hb₀ p₀ hp₀).1 (hpix b₀ hb₀ p₀ hp₀).2.1
  have hjj : e.j_min ≤ e.j_max :=
    le_trans (hpix b₀ hb₀ p₀ hp₀).2.2.1 (hpix b₀ hb₀ p₀ hp₀).2.2.2
  have hw : (g'.width : ℤ) = e.i_max - e.i_min + 1 := by
    show ((e.i_max - e.i_min + 1).toNat : ℤ) = e.i_max - e.i_min + 1
    omega
  have hh : (g'.height : ℤ) = e.j_max - e.j_min + 1 := by
    show ((e.j_max - e.j_min + 1).toNat : ℤ) = e.j_max - e.j_min + 1
    omega
  have hw1 : 1 ≤ g'.width := by
    show 1 ≤ (e.i_max - e.i_min + 1).toNat
    omega
  have hh1 : 1 ≤ g'.height := by
    show 1 ≤ (e.j_max - e.j_min + 1).toNat
    omega
  refine ⟨hw, hh, hw1, hh1, rfl, rfl, ?_⟩
  intro b hb p hp
  have hxnew : (fwdPixel g' trafo p.1 p.2).1 = (fwdPixel g trafo p.1 p.2).1 - e.i_min := by
    show ⌊((projectPoint g trafo p.1 p.2).1 - e.i_min * g.x_res) / g.x_res⌋ =
      ⌊((projectPoint g trafo p.1 p.2).1 - g.x_min) / g.x_res⌋ - e.i_min
    rw [hx0, sub_zero]
    rw [show ((projectPoint g trafo p.1 p.2).1 - e.i_min * g.x_res) / g.x_res =
        (projectPoint g trafo p.1 p.2).1 / g.x_res - (e.i_min : ℚ) by
      field_simp; ring]
    exact Int.floor_sub_int _ _
  have hynew : (fwdPixel g' trafo p.1 p.2).2 = (fwdPixel g trafo p.1 p.2).2 - e.j_min := by
    show ⌊((projectPoint g trafo p.1 p.2).2 - e.j_min * g.y_res) / g.y_res⌋ =
      ⌊((projectPoint g trafo p.1 p.2).2 - g.y_min) / g.y_res⌋ - e.j_min
    rw [hy0, sub_zero]
    rw [show ((projectPoint g trafo p.1 p.2).2 - e.j_min * g.y_res) / g.y_res =
        (projectPoint g trafo p.1 p.2).2 / g.y_res - (e.j_min : ℚ) by
      field_simp; ring]
    exact Int.floor_sub_int _ _
  have hb1 := (hpix b hb p hp).1
  have hb2 := (hpix b hb p hp).2.1
  have hb3 := (hpix b hb p hp).2.2.1
  have hb4 := (hpix b hb p hp).2.2.2
  rw [hxnew, hynew, hw, hh]
  omega

/-- Claim C3, witness: the example blocks under the preliminary grid finalize
to a covering 3×2 grid containing all recomputed indices. -/
theorem claim_C3_witness :
    1 ≤ (determine_covering_dst_grid preGrid
      (exBlocks.map (List.map (fun p => fwdPixel preGrid idTrafo p.1 p.2)))).width :=
  ((claim_C3 preGrid idTrafo exBlocks (by norm_num [preGrid]) (by norm_num [preGrid])
    rfl rfl (by simp [exBlocks]) (by simp [exBlocks])).2).2.1

theorem mem_matchingPixels (fwd : ℕ → ℕ → ℤ × ℤ) (nr nc : ℕ) (g : Grid)
    (tj ti : ℕ) (rc : ℕ × ℕ) :
    rc ∈ matchingPixels fwd nr nc g tj ti ↔
      rc.1 < nr ∧ rc.2 < nc ∧ insideDstBlock g tj ti (fwd rc.1 rc.2) = true := by
  obtain ⟨r, c⟩ := rc
  simp only [matchingPixels, List.mem_flatMap, List.mem_range, List.mem_filterMap]
  constructor
  · rintro ⟨a, ha, haf⟩
    obtain ⟨c', hc', h⟩ := haf
    by_cases hin : insideDstBlock g tj ti (fwd a c') = true
    · rw [if_pos hin] at h
      obtain ⟨rfl, rfl⟩ := Prod.mk.injEq .. ▸ (Option.some.inj h)
      exact ⟨ha, hc', hin⟩
    · rw [if_neg hin] at h
      exact absurd h (Option.noConfusion ·)
  · rintro ⟨h1, h2, h3⟩
    exact ⟨r, h1, c, h2, by rw [if_pos h3]⟩

/-- Claim C4: for every source tile and destination tile, if at least one
pixel's forward index lies inside the destination tile's range, the emitted
box is `(max(min_col-1,0), max(min_row-1,0), min(max_col+2,src_width),
min(max_row+2,src_height))` over the matching global source columns/rows, and
otherwise import the sentinel box `(src_width, src_height, -1, -1)`. -/
theorem claim_C4 (fwd : ℕ → ℕ → ℤ × ℤ) (nr nc : ℕ) (g : Grid)
    (st ss bid : ℕ × ℕ) (tj ti : ℕ) :
    ((∃ r c : ℕ, r < nr ∧ c < nc ∧ insideDstBlock g tj ti (fwd r c) = true) →
      boxSpec fwd nr nc g st ss bid tj ti) ∧
    ((¬ ∃ r c : ℕ, r < nr ∧ c < nc ∧ insideDstBlock g tj ti (fwd r c) = true) →
      dst_bboxes_of_src_block fwd nr nc g st ss bid tj ti = sentinelBBox ss) := by
  constructor
  · rintro ⟨r, c, hr, hc, hin⟩
    have hms : (r, c) ∈ matchingPixels fwd nr nc g tj ti :=
      (mem_matchingPixels fwd nr nc g tj ti (r, c)).mpr ⟨hr, hc, hin⟩
    have hne : matchingPixels fwd nr nc g tj ti ≠ [] := List.ne_nil_of_mem hms
    refine ⟨intMin ((matchingPixels fwd nr nc g tj ti).map
        (fun rc => (rc.2 : ℤ) + (bid.2 : ℤ) * st.2)),
      intMin ((matchingPixels fwd nr nc g tj ti).map
        (fun rc => (rc.1 : ℤ) + (bid.1 : ℤ) * st.1)),
      intMax ((matchingPixels fwd nr nc g tj ti).map
        (fun rc => (rc.2 : ℤ) + (bid.2 : ℤ) * st.2)),
      intMax ((matchingPixels fwd nr nc g tj ti).map
        (fun rc => (rc.1 : ℤ) + (bid.1 : ℤ) * st.1)), ?_, ?_, ?_, ?_, ?_⟩
    · constructor
      · have hmem := intMin_mem ((matchingPixels fwd nr nc g tj ti).map
          (fun rc => (rc.2 : ℤ) + (bid.2 : ℤ) * st.2)) (by simpa using hne)
        obtain ⟨rc, hrc, heq⟩ := List.mem_map.mp hmem
        obtain ⟨h1, h2, h3⟩ := (mem_matchingPixels fwd nr nc g tj ti rc).mp hrc
        exact ⟨rc.1, rc.2, h1, h2, h3, heq.symm⟩
      · rintro x ⟨r', c', h1, h2, h3, rfl⟩
        exact intMin_le _ _ (List.mem_map_of_mem _
          ((mem_matchingPixels fwd nr nc g tj ti (r', c')).mpr ⟨h1, h2, h3⟩))
    · constructor
      · have hmem := intMin_mem ((matchingPixels fwd nr nc g tj ti).map
          (fun rc => (rc.1 : ℤ) + (bid.1 : ℤ) * st.1)) (by simpa using hne)
        obtain ⟨rc, hrc, heq⟩ := List.mem_map.mp hmem
        obtain ⟨h1, h2, h3⟩ := (mem_matchingPixels fwd nr nc g tj ti rc).mp hrc
        exact ⟨rc.1, rc.2, h1, h2, h3, heq.symm⟩
      · rintro x ⟨r', c', h1, h2, h3, rfl⟩
        exact intMin_le _ _ (List.mem_map_of_mem _
          ((mem_matchingPixels fwd nr nc g tj ti (r', c')).mpr ⟨h1, h2, h3⟩))
    · constructor
      · have hmem := intMax_mem ((matchingPixels fwd nr nc g tj ti).map
          (fun rc => (rc.2 : ℤ) + (bid.2 : ℤ) * st.2)) (by simpa using hne)
        obtain ⟨rc, hrc, heq⟩ := List.mem_map.mp hmem
        obtain ⟨h1, h2, h3⟩ := (mem_matchingPixels fwd nr nc g tj ti rc).mp hrc
        exact ⟨rc.1, rc.2, h1, h2, h3, heq.symm⟩
      · rintro x ⟨r', c', h1, h2, h3, rfl⟩
        exact le_intMax _ _ (List.mem_map_of_mem _
          ((mem_matchingPixels fwd nr nc g tj ti (r', c')).mpr ⟨h1, h2, h3⟩))
    · constructor
      · have hmem := intMax_mem ((matchingPixels fwd nr nc g tj ti).map
          (fun rc => (rc.1 : ℤ) + (bid.1 : ℤ) * st.1)) (by simpa using hne)
        obtain ⟨rc, hrc, heq⟩ := List.mem_map.mp hmem
        obtain ⟨h1, h2, h3⟩ := (mem_matchingPixels fwd nr nc g tj ti rc).mp hrc
        exact ⟨rc.1, rc.2, h1, h2, h3, heq.symm⟩
      · rintro x ⟨r', c', h1, h2, h3, rfl⟩
        exact le_intMax _ _ (List.mem_map_of_mem _
          ((mem_matchingPixels fwd nr nc g tj ti (r', c')).mpr ⟨h1, h2, h3⟩))
    · show dst_bboxes_of_src_block fwd nr nc g st ss bid tj ti = _
      unfold dst_bboxes_of_src_block
      rw [if_neg hne]
  · intro h
    have hms : matchingPixels fwd nr nc g tj ti = [] := by
      cases hx : matchingPixels fwd nr nc g tj ti with
      | nil => rfl
      | cons a l =>
        exfalso
        apply h
        have ha : a ∈ matchingPixels fwd nr nc g tj ti := by
          rw [hx]; exact List.mem_cons_self a l
        obtain ⟨h1, h2, h3⟩ := (mem_matchingPixels fwd nr nc g tj ti a).mp ha
        exact ⟨a.1, a.2, h1, h2, h3⟩
    unfold dst_bboxes_of_src_block
    rw [if_pos hms]

/-- Claim C4, witness: on the example image's upper-left 3×2 forward-index
block and destination tile (0, 0), some pixel matches and the margined box of
the spec formula is emitted. -/
theorem claim_C4_witness : boxSpec exFwd 3 2 exGrid (3, 2) (4, 3) (0, 0) 0 0 :=
  (claim_C4 exFwd 3 2 exGrid (3, 2) (4, 3) (0, 0) 0 0).1
    ⟨0, 0, by norm_num, by norm_num, by with_unfolding_all decide⟩

theorem foldl_min_eq (xs : List ℤ) (a : ℤ) (h : xs ≠ []) :
    xs.foldl min a = min a (intMin xs) := by
  induction xs generalizing a with
  | nil => exact absurd rfl h
  | cons y ys ih =>
    by_cases hys : ys = []
    · subst hys; simp [intMin]
    · have h1 : (y :: ys).foldl min a = ys.foldl min (min a y) := rfl
      have h2 : intMin (y :: ys) = ys.foldl min y := rfl
      rw [h1, ih (min a y) hys, h2, ih y hys, min_assoc]

theorem intMin_cons_ne (x : ℤ) (xs : List ℤ) (h : xs ≠ []) :
    intMin (x :: xs) = min x (intMin xs) := foldl_min_eq xs x h

theorem foldl_max_eq (xs : List ℤ) (a : ℤ) (h : xs ≠ []) :
    xs.foldl max a = max a (intMax xs) := by
  induction xs generalizing a with
  | nil => exact absurd rfl h
  | cons y ys ih =>
    by_cases hys : ys = []
    · subst hys; simp [intMax]
    · have h1 : (y :: ys).foldl max a = ys.foldl max (max a y) := rfl
      have h2 : intMax (y :: ys) = ys.foldl max y := rfl
      rw [h1, ih (max a y) hys, h2, ih y hys, max_assoc]

theorem intMax_cons_ne (x : ℤ) (xs : List ℤ) (h : xs ≠ []) :
    intMax (x :: xs) = max x (intMax xs) := foldl_max_eq xs x h

theorem intMin_filter_sentinel (ss : ℕ × ℕ) (f : BBox → ℤ) (boxes : List BBox)
    (hall : ∀ b ∈ boxes, b = sentinelBBox ss ∨ f b < f (sentinelBBox ss))
    (hex : ∃ b ∈ boxes, b ≠ sentinelBBox ss) :
    intMin (boxes.map f) =
      intMin ((boxes.filter (fun b => b ≠ sentinelBBox ss)).map f) := by
  induction boxes with
  | nil => obtain ⟨x, hx, _⟩ := hex; simp at hx
  | cons b bs ih =>
    by_cases hb : b = sentinelBBox ss
    · have hfil : (b :: bs).filter (fun x => x ≠ sentinelBBox ss) =
          bs.filter (fun x => x ≠ sentinelBBox ss) := by
        simp [List.filter_cons, hb]
      obtain ⟨x, hx, hxs⟩ := hex
      have hxbs : x ∈ bs := by
        rcases List.mem_cons.mp hx with h | h
        · exact absurd (h.trans hb) hxs
        · exact h
      have ihh := ih (fun c hc => hall c (List.mem_cons_of_mem b hc)) ⟨x, hxbs, hxs⟩
      rw [hfil, ← ihh]
      have hbsne : bs.map f ≠ [] := by
        simp only [ne_eq, List.map_eq_nil_iff]
        exact List.ne_nil_of_mem hxbs
      rw [show (b :: bs).map f = f b :: bs.map f from rfl, intMin_cons_ne _ _ hbsne]
      have hfx : f x < f (sentinelBBox ss) := by
        rcases hall x hx with h | h
        · exact absurd h hxs
        · exact h
      have hle : intMin (bs.map f) ≤ f x := intMin_le _ _ (List.mem_map_of_mem f hxbs)
      rw [hb]
      exact min_eq_right (le_of_lt (lt_of_le_of_lt hle hfx))
    · have hfil : (b :: bs).filter (fun x => x ≠ sentinelBBox ss) =
          b :: bs.filter (fun x => x ≠ sentinelBBox ss) := by
        simp [List.filter_cons, hb]
      by_cases hbs : ∃ x ∈ bs, x ≠ sentinelBBox ss
      · obtain ⟨x, hxbs, hxs⟩ := hbs
        have ihh := ih (fun c hc => hall c (List.mem_cons_of_mem b hc)) ⟨x, hxbs, hxs⟩
        have hbsne : bs.map f ≠ [] := by
          simp only [ne_eq, List.map_eq_nil_iff]
          exact List.ne_nil_of_mem hxbs
        have hfbsne : (bs.filter (fun x => x ≠ sentinelBBox ss)).map f ≠ [] := by
          simp only [ne_eq, List.map_eq_nil_iff]
          exact List.ne_nil_of_mem (List.mem_filter.mpr ⟨hxbs, by simp [hxs]⟩)
        rw [hfil, show (b :: bs).map f = f b :: bs.map f from rfl,
          show (b :: bs.filter (fun x => x ≠ sentinelBBox ss)).map f =
            f b :: (bs.filter (fun x => x ≠ sentinelBBox ss)).map f from rfl,
          intMin_cons_ne _ _ hbsne, intMin_cons_ne _ _ hfbsne, ihh]
      · push_neg at hbs
        have hfil2 : bs.filter (fun x => x ≠ sentinelBBox ss) = [] := by
          rw [List.filter_eq_nil_iff]
          intro a ha
          simp [hbs a ha]
        rw [hfil, hfil2]
        by_cases hbsnil : bs = []
        · subst hbsnil; rfl
        · have hbsne : bs.map f ≠ [] := by
            simp only [ne_eq, List.map_eq_nil_iff]; exact hbsnil
          rw [show (b :: bs).map f = f b :: bs.map f from rfl,
            intMin_cons_ne _ _ hbsne]
          have hconst : intMin (bs.map f) = f (sentinelBBox ss) := by
            have hmem := intMin_mem (bs.map f) hbsne
            obtain ⟨x, hx, hfx⟩ := List.mem_map.mp hmem
            rw [← hfx, hbs x hx]
          rw [hconst]
          have hfb : f b < f (sentinelBBox ss) := by
            rcases hall b (List.mem_cons_self b bs) with h | h
            · exact absurd h hb
            · exact h
          exact min_eq_left (le_of_lt hfb)

theorem intMax_filter_sentinel (ss : ℕ × ℕ) (f : BBox → ℤ) (boxes : List BBox)
    (hall : ∀ b ∈ boxes, b = sentinelBBox ss ∨ f (sentinelBBox ss) < f b)
    (hex : ∃ b ∈ boxes, b ≠ sentinelBBox ss) :
    intMax (boxes.map f) =
      intMax ((boxes.filter (fun b => b ≠ sentinelBBox ss)).map f) := by
  induction boxes with
  | nil => obtain ⟨x, hx, _⟩ := hex; simp at hx
  | cons b bs ih =>
    by_cases hb : b = sentinelBBox ss
    · have hfil : (b :: bs).filter (fun x => x ≠ sentinelBBox ss) =
          bs.filter (fun x => x ≠ sentinelBBox ss) := by
        simp [List.filter_cons, hb]
      obtain ⟨x, hx, hxs⟩ := hex
      have hxbs : x ∈ bs := by
        rcases List.mem_cons.mp hx with h | h
        · exact absurd (h.trans hb) hxs
        · exact h
      have ihh := ih (fun c hc => hall c (List.mem_cons_of_mem b hc)) ⟨x, hxbs, hxs⟩
      rw [hfil, ← ihh]
      have hbsne : bs.map f ≠ [] := by
        simp only [ne_eq, List.map_eq_nil_iff]
        exact List.ne_nil_of_mem hxbs
      rw [show (b :: bs).map f = f b :: bs.map f from rfl, intMax_cons_ne _ _ hbsne]
      have hfx : f (sentinelBBox ss) < f x := by
        rcases hall x hx with h | h
        · exact absurd h hxs
        · exact h
      have hle : f x ≤ intMax (bs.map f) := le_intMax _ _ (List.mem_map_of_mem f hxbs)
      rw [hb]
      exact max_eq_right (le_of_lt (lt_of_lt_of_le hfx hle))
    · have hfil : (b :: bs).filter (fun x => x ≠ sentinelBBox ss) =
          b :: bs.filter (fun x => x ≠ sentinelBBox ss) := by
        simp [List.filter_cons, hb]
      by_cases hbs : ∃ x ∈ bs, x ≠ sentinelBBox ss
      · obtain ⟨x, hxbs, hxs⟩ := hbs
        have ihh := ih (fun c hc => hall c (List.mem_cons_of_mem b hc)) ⟨x, hxbs, hxs⟩
        have hbsne : bs.map f ≠ [] := by
          simp only [ne_eq, List.map_eq_nil_iff]
          exact List.ne_nil_of_mem hxbs
        have hfbsne : (bs.filter (fun x => x ≠ sentinelBBox ss)).map f ≠ [] := by
          simp only [ne_eq, List.map_eq_nil_iff]
          exact List.ne_nil_of_mem (List.mem_filter.mpr ⟨hxbs, by simp [hxs]⟩)
        rw [hfil, show (b :: bs).map f = f b :: bs.map f from rfl,
          show (b :: bs.filter (fun x => x ≠ sentinelBBox ss)).map f =
            f b :: (bs.filter (fun x => x ≠ sentinelBBox ss)).map f from rfl,
          intMax_cons_ne _ _ hbsne, intMax_cons_ne _ _ hfbsne, ihh]
      · push_neg at hbs
        have hfil2 : bs.filter (fun x => x ≠ sentinelBBox ss) = [] := by
          rw [List.filter_eq_nil_iff]
          intro a ha
          simp [hbs a ha]
        rw [hfil, hfil2]
        by_cases hbsnil : bs = []
        · subst hbsnil; rfl
        · have hbsne : bs.map f ≠ [] := by
            simp only [ne_eq, List.map_eq_nil_iff]; exact hbsnil
          rw [show (b :: bs).map f = f b :: bs.map f from rfl,
            intMax_cons_ne _ _ hbsne]
          have hconst : intMax (bs.map f) = f (sentinelBBox ss) := by
            have hmem := intMax_mem (bs.map f) hbsne
            obtain ⟨x, hx, hfx⟩ := List.mem_map.mp hmem
            rw [← hfx, hbs x hx]
          rw [hconst]
          have hfb : f (sentinelBBox ss) < f b := by
            rcases hall b (List.mem_cons_self b bs) with h | h
            · exact absurd h hb
            · exact h
          exact max_eq_left (le_of_lt hfb)

/-- Claim C5: every box the Tile Bounds Mapper emits is either the sentinel or
strictly inside the sentinel bounds (min channels below `src_width`/
`src_height`, max channels above `-1`) provided the source block lies within
the image; consequently, for a destination tile receiving at least one
non-sentinel box, the merged box (componentwise min over the min channels, max
over the max channels, across all source tiles) equals the same reduction
restricted to the non-sentinel boxes — sentinel boxes never affect the merged
bounds. -/
theorem claim_C5 :
    (∀ (fwd : ℕ → ℕ → ℤ × ℤ) (nr nc : ℕ) (g : Grid) (st ss bid : ℕ × ℕ)
      (tj ti : ℕ), 1 ≤ ss.1 → 1 ≤ ss.2 →
      (bid.2 : ℤ) * st.2 + nc ≤ (ss.2 : ℤ) → (bid.1 : ℤ) * st.1 + nr ≤ (ss.1 : ℤ) →
      dst_bboxes_of_src_block fwd nr nc g st ss bid tj ti = sentinelBBox ss ∨
        bboxWithin ss (dst_bboxes_of_src_block fwd nr nc g st ss bid tj ti)) ∧
    (∀ (ss : ℕ × ℕ) (boxes : List BBox),
      (∀ b ∈ boxes, b = sentinelBBox ss ∨ bboxWithin ss b) →
      (∃ b ∈ boxes, b ≠ sentinelBBox ss) →
      mergeBBoxes boxes =
        mergeBBoxes (boxes.filter (fun b => b ≠ sentinelBBox ss))) := by
  constructor
  · intro fwd nr nc g st ss bid tj ti hss1 hss2 hfitc hfitr
    by_cases hms : matchingPixels fwd nr nc g tj ti = []
    · left
      unfold dst_bboxes_of_src_block
      rw [if_pos hms]
    · right
      have hmc : ∀ x ∈ (matchingPixels fwd nr nc g tj ti).map
          (fun rc => (rc.2 : ℤ) + (bid.2 : ℤ) * st.2), 0 ≤ x ∧ x < (ss.2 : ℤ) := by
        intro x hx
        obtain ⟨rc, hrc, heq⟩ := List.mem_map.mp hx
        have h2 := ((mem_matchingPixels fwd nr nc g tj ti rc).mp hrc).2.1
        have heq2 : (rc.2 : ℤ) + (bid.2 : ℤ) * st.2 = x := heq
        have hge : 0 ≤ (bid.2 : ℤ) * st.2 := by positivity
        omega
      have hmr : ∀ x ∈ (matchingPixels fwd nr nc g tj ti).map
          (fun rc => (rc.1 : ℤ) + (bid.1 : ℤ) * st.1), 0 ≤ x ∧ x < (ss.1 : ℤ) := by
        intro x hx
        obtain ⟨rc, hrc, heq⟩ := List.mem_map.mp hx
        have h1 := ((mem_matchingPixels fwd nr nc g tj ti rc).mp hrc).1
        have heq2 : (rc.1 : ℤ) + (bid.1 : ℤ) * st.1 = x := heq
        have hge : 0 ≤ (bid.1 : ℤ) * st.1 := by positivity
        omega
      have hcne : (matchingPixels fwd nr nc g tj ti).map
          (fun rc => (rc.2 : ℤ) + (bid.2 : ℤ) * st.2) ≠ [] := by
        simpa using hms
      have hrne : (matchingPixels fwd nr nc g tj ti).map
          (fun rc => (rc.1 : ℤ) + (bid.1 : ℤ) * st.1) ≠ [] := by
        simpa using hms
      have hc := hmc _ (intMin_mem _ hcne)
      have hr := hmr _ (intMin_mem _ hrne)
      have hC := hmc _ (intMax_mem _ hcne)
      have hR := hmr _ (intMax_mem _ hrne)
      unfold dst_bboxes_of_src_block
      rw [if_neg hms]
      refine ⟨?_, ?_, ?_, ?_⟩ <;> simp only [] <;> omega
  · intro ss boxes hall hex
    have hallc : ∀ b ∈ boxes, b = sentinelBBox ss ∨
        BBox.col_min b < BBox.col_min (sentinelBBox ss) := by
      intro b hb
      rcases hall b hb with h | h
      · exact Or.inl h
      · exact Or.inr h.1
    have hallr : ∀ b ∈ boxes, b = sentinelBBox ss ∨
        BBox.row_min b < BBox.row_min (sentinelBBox ss) := by
      intro b hb
      rcases hall b hb with h | h
      · exact Or.inl h
      · exact Or.inr h.2.1
    have hallC : ∀ b ∈ boxes, b = sentinelBBox ss ∨
        BBox.col_max (sentinelBBox ss) < BBox.col_max b := by
      intro b hb
      rcases hall b hb with h | h
      · exact Or.inl h
      · exact Or.inr h.2.2.1
    have hallR : ∀ b ∈ boxes, b = sentinelBBox ss ∨
        BBox.row_max (sentinelBBox ss) < BBox.row_max b := by
      intro b hb
      rcases hall b hb with h | h
      · exact Or.inl h
      · exact Or.inr h.2.2.2
    unfold mergeBBoxes
    simp only [BBox.mk.injEq]
    exact ⟨intMin_filter_sentinel ss BBox.col_min boxes hallc hex,
      intMin_filter_sentinel ss BBox.row_min boxes hallr hex,
      intMax_filter_sentinel ss BBox.col_max boxes hallC hex,
      intMax_filter_sentinel ss BBox.row_max boxes hallR hex⟩

/-- Claim C5, witness: merging the box of the example's upper-left source
block for destination tile (0, 0) with a sentinel box leaves it unchanged. -/
theorem claim_C5_witness :
    mergeBBoxes [dst_bboxes_of_src_block exFwd 3 2 exGrid (3, 2) (4, 3) (0, 0) 0 0,
      sentinelBBox (4, 3)] =
    mergeBBoxes ([dst_bboxes_of_src_block exFwd 3 2 exGrid (3, 2) (4, 3) (0, 0) 0 0,
      sentinelBBox (4, 3)].filter (fun b => b ≠ sentinelBBox (4, 3))) :=
  (claim_C5).2 (4, 3) _
    (by
      intro b hb
      rcases List.mem_cons.mp hb with h | h
      · subst h
        right
        unfold bboxWithin
        with_unfolding_all decide
      · rcases List.mem_cons.mp h with h2 | h2
        · exact Or.inl h2
        · simp at h2)
    ⟨dst_bboxes_of_src_block exFwd 3 2 exGrid (3, 2) (4, 3) (0, 0) 0 0,
      List.mem_cons_self _ _, by with_unfolding_all decide⟩

theorem stepA_preserve (sub : ℕ → ℕ → ℚ × ℚ) (soff : ℚ × ℚ) (dw dh : ℤ)
    (o : ℕ × ℕ) (m : IdxMat) (q : ℕ × ℕ) (j i : ℤ)
    (h : ¬ writesAtA sub q o dw dh j i) :
    stepA sub soff dw dh o m q j i = m j i := by
  show (if isInsideTriangleA sub q (bboxMinI sub q + o.2) (bboxMinJ sub q + o.1) dw dh
    then writeMat m (bboxMinJ sub q + o.1) (bboxMinI sub q + o.2)
      (valA sub q soff (bboxMinI sub q + o.2) (bboxMinJ sub q + o.1))
    else m) j i = m j i
  by_cases hin : isInsideTriangleA sub q (bboxMinI sub q + o.2) (bboxMinJ sub q + o.1)
      dw dh = true
  · rw [if_pos hin]
    show (if j = bboxMinJ sub q + o.1 ∧ i = bboxMinI sub q + o.2 then _ else m j i) = m j i
    rw [if_neg]
    rintro ⟨hj, hi⟩
    exact h ⟨hin, hj.symm, hi.symm⟩
  · rw [if_neg hin]

theorem stepB_preserve (sub : ℕ → ℕ → ℚ × ℚ) (soff : ℚ × ℚ) (dw dh : ℤ)
    (o : ℕ × ℕ) (m : IdxMat) (q : ℕ × ℕ) (j i : ℤ)
    (h : ¬ writesAtB sub q o dw dh j i) :
    stepB sub soff dw dh o m q j i = m j i := by
  show (if isInsideTriangleB sub q (bboxMinI sub q + o.2) (bboxMinJ sub q + o.1) dw dh
    then writeMat m (bboxMinJ sub q + o.1) (bboxMinI sub q + o.2)
      (valB sub q soff (bboxMinI sub q + o.2) (bboxMinJ sub q + o.1))
    else m) j i = m j i
  by_cases hin : isInsideTriangleB sub q (bboxMinI sub q + o.2) (bboxMinJ sub q + o.1)
      dw dh = true
  · rw [if_pos hin]
    show (if j = bboxMinJ sub q + o.1 ∧ i = bboxMinI sub q + o.2 then _ else m j i) = m j i
    rw [if_neg]
    rintro ⟨hj, hi⟩
    exact h ⟨hin, hj.symm, hi.symm⟩
  · rw [if_neg hin]

theorem foldl_stepA_preserve (sub : ℕ → ℕ → ℚ × ℚ) (soff : ℚ × ℚ) (dw dh : ℤ)
    (o : ℕ × ℕ) (qs : List (ℕ × ℕ)) (m : IdxMat) (j i : ℤ)
    (h : ∀ q ∈ qs, ¬ writesAtA sub q o dw dh j i) :
    qs.foldl (stepA sub soff dw dh o) m j i = m j i := by
  induction qs generalizing m with
  | nil => rfl
  | cons q qs' ih =>
    rw [List.foldl_cons,
      ih (stepA sub soff dw dh o m q) (fun q' hq' => h q' (List.mem_cons_of_mem _ hq'))]
    exact stepA_preserve sub soff dw dh o m q j i (h q (List.mem_cons_self q qs'))

theorem foldl_stepB_preserve (sub : ℕ → ℕ → ℚ × ℚ) (soff : ℚ × ℚ) (dw dh : ℤ)
    (o : ℕ × ℕ) (qs : List (ℕ × ℕ)) (m : IdxMat) (j i : ℤ)
    (h : ∀ q ∈ qs, ¬ writesAtB sub q o dw dh j i) :
    qs.foldl (stepB sub soff dw dh o) m j i = m j i := by
  induction qs generalizing m with
  | nil => rfl
  | cons q qs' ih =>
    rw [List.foldl_cons,
      ih (stepB sub soff dw dh o m q) (fun q' hq' => h q' (List.mem_cons_of_mem _ hq'))]
    exact stepB_preserve sub soff dw dh o m q j i (h q (List.mem_cons_self q qs'))

theorem sweep_nan (sub : ℕ → ℕ → ℚ × ℚ) (soff : ℚ × ℚ) (dw dh : ℤ)
    (quads : List (ℕ × ℕ)) (maxW maxH : ℤ) (j i : ℤ)
    (h : ∀ q ∈ quads, ∀ o : ℕ × ℕ,
      ¬ writesAtA sub q o dw dh j i ∧ ¬ writesAtB sub q o dw dh j i) :
    sweep sub soff dw dh quads maxW maxH j i = (.nan, .nan) := by
  suffices hgen : ∀ (os : List (ℕ × ℕ)) (m : IdxMat), m j i = (.nan, .nan) →
      (os.foldl (fun m off =>
        quads.foldl (stepB sub soff dw dh off)
          (quads.foldl (stepA sub soff dw dh off) m)) m) j i = (.nan, .nan) by
    exact hgen _ initMat rfl
  intro os
  induction os with
  | nil => intro m hm; exact hm
  | cons o os' ih =>
    intro m hm
    rw [List.foldl_cons]
    apply ih
    rw [foldl_stepB_preserve sub soff dw dh o quads _ j i (fun q hq => (h q hq o).2),
      foldl_stepA_preserve sub soff dw dh o quads m j i (fun q hq => (h q hq o).1)]
    exact hm

theorem read_of_tileMask (st : ℕ × ℕ) (nbi tile : ℤ) (m : Meas) (bj bi : ℤ)
    (h : tileMask st nbi tile m bj bi = true) :
    ∃ v, m.read (bj - tile.fdiv nbi * st.1) (bi - tile.emod nbi * st.2) = some v := by
  unfold tileMask at h
  simp only [Bool.and_eq_true, decide_eq_true_eq] at h
  obtain ⟨⟨⟨⟨⟨h1, h2⟩, h3⟩, h4⟩, h5⟩, h6⟩ := h
  have hread : m.read (bj - tile.fdiv nbi * st.1) (bi - tile.emod nbi * st.2) =
      some (fun b => m.val b (bj - tile.fdiv nbi * st.1).toNat
        (bi - tile.emod nbi * st.2).toNat) := by
    unfold Meas.read
    rw [if_pos ⟨h3, h4, h5, h6⟩]
  exact ⟨_, hread⟩

theorem rectifyStep_unmatched (st : ℕ × ℕ) (nbi bj bi : ℤ) (b : ℕ)
    (acc : Except String (Option ℚ)) (t : ℤ × Meas)
    (h : tileMask st nbi t.1 t.2 bj bi = false) :
    rectifyStep st nbi bj bi b acc t = acc := by
  unfold rectifyStep
  cases acc with
  | error e => rfl
  | ok cur =>
    dsimp only
    rw [if_neg (by simp [h])]

theorem rectify_fold_unmatched (st : ℕ × ℕ) (nbi bj bi : ℤ) (b : ℕ)
    (tiles : List (ℤ × Meas)) (acc : Except String (Option ℚ))
    (h : ∀ t ∈ tiles, tileMask st nbi t.1 t.2 bj bi = false) :
    tiles.foldl (rectifyStep st nbi bj bi b) acc = acc := by
  induction tiles generalizing acc with
  | nil => rfl
  | cons t ts ih =>
    rw [List.foldl_cons, rectifyStep_unmatched st nbi bj bi b acc t
      (h t (List.mem_cons_self t ts))]
    exact ih acc (fun t' ht' => h t' (List.mem_cons_of_mem _ ht'))

theorem rectifyStep_ok (st : ℕ × ℕ) (nbi bj bi : ℤ) (b : ℕ)
    (acc : Except String (Option ℚ)) (t : ℤ × Meas)
    (h : ∃ o, acc = .ok o) : ∃ o, rectifyStep st nbi bj bi b acc t = .ok o := by
  obtain ⟨o, rfl⟩ := h
  by_cases hm : tileMask st nbi t.1 t.2 bj bi = true
  · obtain ⟨v, hv⟩ := read_of_tileMask st nbi t.1 t.2 bj bi hm
    refine ⟨some (v b), ?_⟩
    unfold rectifyStep
    dsimp only
    rw [if_pos hm, hv]
  · refine ⟨o, ?_⟩
    exact rectifyStep_unmatched st nbi bj bi b (.ok o) t (by simpa using hm)

theorem rectify_fold_ok (st : ℕ × ℕ) (nbi bj bi : ℤ) (b : ℕ)
    (tiles : List (ℤ × Meas)) (acc : Except String (Option ℚ))
    (h : ∃ o, acc = .ok o) :
    ∃ o, tiles.foldl (rectifyStep st nbi bj bi b) acc = .ok o := by
  induction tiles generalizing acc with
  | nil => exact h
  | cons t ts ih =>
    rw [List.foldl_cons]
    exact ih _ (rectifyStep_ok st nbi bj bi b acc t h)

/-- Claim C6: a destination pixel targeted by no triangle write keeps the NaN
initialization in both inverse-index channels; a destination pixel matched by
no source tile in the Resampler stays NaN in every band; and the sentinel
bounding box `(src_width, src_height, -1, -1)` slices an empty source subset
(slice lengths 0 on both axes) whose inverse index is all-NaN — empty coverage
propagates as NaN output, never as an exception (every embedded function here
is total). -/
theorem claim_C6 :
    (∀ (lonlat : ℕ → ℕ → ℚ × ℚ) (rows cols : ℕ) (soff : ℚ × ℚ) (g : Grid)
        (trafo : Trafo) (bid : ℕ × ℕ) (j i : ℤ),
      (∀ q ∈ quadList rows cols, ∀ o : ℕ × ℕ,
        ¬ writesAtA (subsetFrac g trafo bid lonlat) q o
            (dstBlockWidth g bid.2) (dstBlockHeight g bid.1) j i ∧
        ¬ writesAtB (subsetFrac g trafo bid lonlat) q o
            (dstBlockWidth g bid.2) (dstBlockHeight g bid.1) j i) →
      inverse_index_of_dst_block_with_src_subset lonlat rows cols soff g trafo bid j i
        = (.nan, .nan)) ∧
    (∀ (bi bj : ℕ → ℕ → ℤ) (st : ℕ × ℕ) (nbi : ℤ) (tiles : List (ℤ × Meas))
        (b r c : ℕ),
      (∀ t ∈ tiles, tileMask st nbi t.1 t.2 (bj r c) (bi r c) = false) →
      rectify_tiles_to_block bi bj st nbi tiles b r c = .ok none) ∧
    (∀ srcH srcW : ℕ,
      sliceLen srcH (sentinelBBox (srcH, srcW)).row_min
        (sentinelBBox (srcH, srcW)).row_max = 0 ∧
      sliceLen srcW (sentinelBBox (srcH, srcW)).col_min
        (sentinelBBox (srcH, srcW)).col_max = 0) ∧
    (∀ (lonlat : ℕ → ℕ → ℚ × ℚ) (soff : ℚ × ℚ) (g : Grid) (trafo : Trafo)
        (bid : ℕ × ℕ) (j i : ℤ),
      inverse_index_of_dst_block_with_src_subset lonlat 0 0 soff g trafo bid j i
        = (.nan, .nan)) := by
  refine ⟨?_, ?_, ?_, ?_⟩
  · intro lonlat rows cols soff g trafo bid j i h
    exact sweep_nan (subsetFrac g trafo bid lonlat) soff
      (dstBlockWidth g bid.2) (dstBlockHeight g bid.1) (quadList rows cols) _ _ j i h
  · intro bi bj st nbi tiles b r c h
    exact rectify_fold_unmatched st nbi (bj r c) (bi r c) b tiles (.ok none) h
  · intro srcH srcW
    constructor
    · show ((if ((-1 : ℤ)) < 0 then max ((-1) + (srcH : ℤ)) 0 else min (-1) (srcH : ℤ))
        - (if ((srcH : ℤ)) < 0 then max ((srcH : ℤ) + (srcH : ℤ)) 0
            else min (srcH : ℤ) (srcH : ℤ))).toNat = 0
      rw [if_pos (by omega), if_neg (by omega)]
      omega
    · show ((if ((-1 : ℤ)) < 0 then max ((-1) + (srcW : ℤ)) 0 else min (-1) (srcW : ℤ))
        - (if ((srcW : ℤ)) < 0 then max ((srcW : ℤ) + (srcW : ℤ)) 0
            else min (srcW : ℤ) (srcW : ℤ))).toNat = 0
      rw [if_pos (by omega), if_neg (by omega)]
      omega
  · intro lonlat soff g trafo bid j i
    rfl

/-- Claim C6, witness: an empty source subset yields NaN at destination pixel
(0, 0); a pixel whose rounded inverse index is the −1 sentinel is matched by no
tile and stays NaN; and the sentinel box for a 4×3 image slices 0 rows. -/
theorem claim_C6_witness :
    inverse_index_of_dst_block_with_src_subset c1Lonlat 0 0 (1/2, 1/2) c1Grid idTrafo
      (0, 0) 0 0 = (.nan, .nan) ∧
    rectify_tiles_to_block (fun _ _ => -1) (fun _ _ => -1) (2, 2) 2 [(5, exMeas)]
      0 0 0 = .ok none ∧
    sliceLen 4 (sentinelBBox (4, 3)).row_min (sentinelBBox (4, 3)).row_max = 0 := by
  refine ⟨claim_C6.1 c1Lonlat 0 0 (1/2, 1/2) c1Grid idTrafo (0, 0) 0 0 ?_,
    claim_C6.2.1 (fun _ _ => -1) (fun _ _ => -1) (2, 2) 2 [(5, exMeas)] 0 0 0 ?_,
    (claim_C6.2.2.1 4 3).1⟩
  · intro q hq o
    rw [show quadList 0 0 = [] from rfl] at hq
    exact absurd hq (List.not_mem_nil q)
  · intro t ht
    rw [List.mem_singleton] at ht
    subst ht
    decide

/-- Claim C10: for arbitrary integer inverse-index contents (including the −1
NaN sentinel and rounded indices outside the source image), the Resampler's
gather never performs an out-of-range read into a measurement tile — the result
is always `ok` — because the mask requires `0 ≤ shifted < tile extent` before
any read; and destination pixels matched by no tile keep their NaN
initialization in every band. -/
theorem claim_C10 (bi bj : ℕ → ℕ → ℤ) (st : ℕ × ℕ) (nbi : ℤ)
    (tiles : List (ℤ × Meas)) (b r c : ℕ) :
    (∃ o : Option ℚ, rectify_tiles_to_block bi bj st nbi tiles b r c = .ok o) ∧
    ((∀ t ∈ tiles, tileMask st nbi t.1 t.2 (bj r c) (bi r c) = false) →
      rectify_tiles_to_block bi bj st nbi tiles b r c = .ok none) := by
  constructor
  · exact rectify_fold_ok st nbi (bj r c) (bi r c) b tiles (.ok none) ⟨none, rfl⟩
  · intro h
    exact rectify_fold_unmatched st nbi (bj r c) (bi r c) b tiles (.ok none) h

/-- Claim C10, witness: with the all-sentinel inverse index no read occurs and
the pixel stays NaN. -/
theorem claim_C10_witness :
    rectify_tiles_to_block (fun _ _ => -1) (fun _ _ => -1) (2, 2) 2 [(3, exMeas)]
      0 0 0 = .ok none := by
  apply (claim_C10 (fun _ _ => -1) (fun _ _ => -1) (2, 2) 2 [(3, exMeas)] 0 0 0).2
  intro t ht
  rw [List.mem_singleton] at ht
  subst ht
  decide

/-- Claim C2: for every source pixel of a block the Forward Indexer returns
`i = ⌊(x - x_min)/x_res⌋` and `j = ⌊(y - y_min)/y_res⌋` where `(x, y)` is the
pixel's geo-coordinate projected to the destination CRS, taken identically as
`(lon, lat)` with no transform invoked when the destination CRS is geographic
(the result is then independent of the transform); the result is not clamped —
it is independent of the grid size and can lie outside
`[0, width) × [0, height)`. -/
theorem claim_C2 (g : Grid) (trafo : Trafo) (src_lon src_lat : ℕ → ℕ → ℚ) (r c : ℕ) :
    block_dst_pixels_of_src_block g trafo src_lon src_lat r c =
      (⌊((projectPoint g trafo (src_lon r c) (src_lat r c)).1 - g.x_min) / g.x_res⌋,
       ⌊((projectPoint g trafo (src_lon r c) (src_lat r c)).2 - g.y_min) / g.y_res⌋) ∧
    (g.is_geographic = true →
      projectPoint g trafo (src_lon r c) (src_lat r c) = (src_lon r c, src_lat r c) ∧
      ∀ trafo' : Trafo, block_dst_pixels_of_src_block g trafo' src_lon src_lat r c =
        block_dst_pixels_of_src_block g trafo src_lon src_lat r c) ∧
    (∀ w h : ℕ,
      block_dst_pixels_of_src_block { g with width := w, height := h } trafo src_lon src_lat r c
        = block_dst_pixels_of_src_block g trafo src_lon src_lat r c) ∧
    (∃ (g₀ : Grid) (lon₀ lat₀ : ℕ → ℕ → ℚ),
      ¬ (0 ≤ (block_dst_pixels_of_src_block g₀ idTrafo lon₀ lat₀ 0 0).1 ∧
         (block_dst_pixels_of_src_block g₀ idTrafo lon₀ lat₀ 0 0).1 < (g₀.width : ℤ) ∧
         0 ≤ (block_dst_pixels_of_src_block g₀ idTrafo lon₀ lat₀ 0 0).2 ∧
         (block_dst_pixels_of_src_block g₀ idTrafo lon₀ lat₀ 0 0).2 < (g₀.height : ℤ))) := by
  refine ⟨rfl, fun hg => ⟨by simp [projectPoint, hg], fun trafo' => by
      simp [block_dst_pixels_of_src_block, fwdPixel, projectPoint, hg]⟩,
    fun w h => rfl,
    ⟨exGrid, fun _ _ => 100, fun _ _ => 54, by with_unfolding_all decide⟩⟩

/-- Claim C2, witness: at the example grid (geographic) the projection is the
identity and the forward index is independent of the stored grid size. -/
theorem claim_C2_witness :
    projectPoint exGrid idTrafo (exLon 0 0) (exLat 0 0) = (exLon 0 0, exLat 0 0) ∧
    block_dst_pixels_of_src_block { exGrid with width := 9, height := 9 } idTrafo exLon exLat 0 0
      = block_dst_pixels_of_src_block exGrid idTrafo exLon exLat 0 0 :=
  ⟨((claim_C2 exGrid idTrafo exLon exLat 0 0).2.1 rfl).1,
   (claim_C2 exGrid idTrafo exLon exLat 0 0).2.2.1 9 9⟩

/-- Claim C9: a pixel whose projected coordinates are exactly
`(x_min + k·x_res, y_min + k'·y_res)` is quantized by the Forward Indexer to
destination column `k` and row `k'` — the floor does not round the exact
boundary to a neighbour. -/
theorem claim_C9 (g : Grid) (trafo : Trafo) (lon lat : ℚ) (k k' : ℤ)
    (hx : g.x_res ≠ 0) (hy : g.y_res ≠ 0)
    (hproj : projectPoint g trafo lon lat =
      (g.x_min + k * g.x_res, g.y_min + k' * g.y_res)) :
    fwdPixel g trafo lon lat = (k, k') := by
  have hdef : fwdPixel g trafo lon lat =
      (⌊((projectPoint g trafo lon lat).1 - g.x_min) / g.x_res⌋,
       ⌊((projectPoint g trafo lon lat).2 - g.y_min) / g.y_res⌋) := rfl
  rw [hdef, hproj]
  have hx1 : (g.x_min + (k : ℚ) * g.x_res - g.x_min) / g.x_res = (k : ℚ) := by
    field_simp
  have hy1 : (g.y_min + (k' : ℚ) * g.y_res - g.y_min) / g.y_res = (k' : ℚ) := by
    field_simp
  rw [hx1, hy1, Int.floor_intCast, Int.floor_intCast]

/-- Claim C9, witness: on the example grid, the projected point
`(10 + 2·0.2, 54 + 3·(-0.125))` maps to destination pixel `(2, 3)`. -/
theorem claim_C9_witness : fwdPixel exGrid idTrafo (52/5) (429/8) = (2, 3) :=
  claim_C9 exGrid idTrafo (52/5) (429/8) 2 3
    (by norm_num [exGrid]) (by norm_num [exGrid])
    (by with_unfolding_all decide)

/-- Claim C8: requesting an index before its dependency was computed does fail,
but not with the designated ValueError: `__init__` never assigns
`self.forward_index`/`self.inverse_index`, so on a Rectifier whose forward
(resp. inverse) index was never created the guard expression itself raises
`AttributeError`, and the `is None` ValueError branch is unreachable — once
`create_forward_pixel_index` runs, the attribute is never `None`. -/
theorem claim_C8 :
    determine_covering_dst_grid_guard (mkRectifier (some exGrid)) =
      .error (.attributeError "forward_index") ∧
    determine_covering_dst_grid_guard (mkRectifier (some exGrid)) ≠
      .error (.valueError "missing forward index. Call create_forward_pixel_index() first.") ∧
    rectify_nearest_neighbour_guard (mkRectifier (some exGrid)) =
      .error (.attributeError "inverse_index") ∧
    rectify_nearest_neighbour_guard (mkRectifier (some exGrid)) ≠
      .error (.valueError "missing inverse index. Call create_inverse_pixel_index() first.") ∧
    ∀ s : RectState, (create_forward_pixel_index s).forward_index = some (some ()) := by
  refine ⟨rfl, fun h => ?_, rfl, fun h => ?_, fun s => rfl⟩
  · rw [show determine_covering_dst_grid_guard (mkRectifier (some exGrid)) =
        Except.error (PyErr.attributeError "forward_index") from rfl] at h
    exact PyErr.noConfusion (Except.error.inj h)
  · rw [show rectify_nearest_neighbour_guard (mkRectifier (some exGrid)) =
        Except.error (PyErr.attributeError "inverse_index") from rfl] at h
    exact PyErr.noConfusion (Except.error.inj h)

end Rectifier
